import Mathlib

/-!
# Verification of the `ai-rules` core

A shallow embedding, in Lean 4, of the core logic of the `ai-rules` CLI
(rule model, per-agent applicability resolution, artifact generation and
the in-sync/status reconciliation algorithm), together with theorems
checking the natural-language specification against the code.

Paths, file contents and agent names are modelled as Lean `String`s
(filesystem paths additionally as lists of components), filesystem state
as association lists from paths to contents, and the fallible Rust
functions as `Except`-valued Lean functions.  Machine re-reads of files
are modelled by passing the same state value; all embedded functions are
executable.
-/

namespace AiRules

/-! ## Constants (src/constants.rs) -/

/-- `constants.rs`: `GENERATED_FILE_PREFIX = "ai-rules-generated-"`. -/
def generatedFilePrefixStr : String := "ai-rules-generated-"

/-- `constants.rs`: `AI_RULE_SOURCE_DIR = "ai-rules"`. -/
def aiRuleSourceDir : String := "ai-rules"

/-- `constants.rs`: `GENERATED_RULE_BODY_DIR = ".generated-ai-rules"`. -/
def generatedRuleBodyDir : String := ".generated-ai-rules"

/-- `constants.rs`: `AGENTS_MD_FILENAME = "AGENTS.md"`. -/
def agentsMdFilename : String := "AGENTS.md"

/-- `source_file.rs`: `FRONTMATTER_DELIMITER = "---"`. -/
def frontmatterDelimiter : String := "---"

/-! ## Character and string helpers

The Rust code works on UTF-8 `str` values with `trim`,
`eq_ignore_ascii_case` and `to_lowercase`.  We model characters by Lean
`Char` and strings by Lean `String`, with our own structurally recursive
operations over `String.data` so that everything evaluates by `decide`.
-/

/-- Model of Rust `char::is_whitespace` (exact on the ASCII range, which is
the only range exercised by rule files and agent names). -/
def isRustWhitespace (c : Char) : Bool :=
  c = ' ' || c = '\t' || c = '\n' || c = '\r'

/-- Model of Rust `str::trim_start`. -/
def trimStartStr (s : String) : String :=
  ⟨s.data.dropWhile isRustWhitespace⟩

/-- Model of Rust `str::trim` (both ends). -/
def trimStr (s : String) : String :=
  ⟨((s.data.dropWhile isRustWhitespace).reverse.dropWhile isRustWhitespace).reverse⟩

/-- ASCII lowercasing of one character, as in Rust `u8::to_ascii_lowercase`
(`A`–`Z` map to `a`–`z`, everything else is fixed). -/
def asciiLowerChar (c : Char) : Char :=
  if 65 ≤ c.toNat ∧ c.toNat ≤ 90 then Char.ofNat (c.toNat + 32) else c

/-- Model of Rust `str::eq_ignore_ascii_case`. -/
def eqIgnoreAsciiCase (a b : String) : Bool :=
  a.data.map asciiLowerChar == b.data.map asciiLowerChar

/-- Model of Rust `str::to_lowercase`.  Rust performs full Unicode
lowercasing; on the ASCII range (agent names) it coincides with the ASCII
mapping used here. -/
def rustToLowercase (s : String) : String :=
  ⟨s.data.map asciiLowerChar⟩

theorem asciiLowerChar_idem (c : Char) :
    asciiLowerChar (asciiLowerChar c) = asciiLowerChar c := by
  by_cases h : 65 ≤ c.toNat ∧ c.toNat ≤ 90
  · have hres : asciiLowerChar c = Char.ofNat (c.toNat + 32) := by
      simp [asciiLowerChar, h]
    rw [hres]
    obtain ⟨h1, h2⟩ := h
    generalize c.toNat = n at h1 h2
    interval_cases n <;> decide
  · simp [asciiLowerChar, h]

/-! ## The rule model (src/models/source_file.rs) -/

/-- `source_file.rs`: struct `FrontMatter`. -/
structure FrontMatter where
  description : String
  alwaysApply : Bool
  fileMatchingPatterns : Option (List String)
  allowedAgents : Option (List String)
  blockedAgents : Option (List String)
deriving Repr, DecidableEq

/-- `source_file.rs`: struct `SourceFile`.  `base_file_name` is set by
`SourceFile::from_file` to the source file's stem (`Path::file_stem`), so
it never contains a path separator. -/
structure SourceFile where
  front_matter : FrontMatter
  body : String
  base_file_name : String
deriving Repr, DecidableEq

/-- `source_file.rs`: `SourceFile::applies_to_agent`. -/
def SourceFile.applies_to_agent (sf : SourceFile) (agentName : String) : Bool :=
  let agentName := trimStr agentName
  match sf.front_matter.allowedAgents with
  | some allowed => allowed.any fun agent => eqIgnoreAsciiCase (trimStr agent) agentName
  | none =>
    match sf.front_matter.blockedAgents with
    | some blocked => !(blocked.any fun agent => eqIgnoreAsciiCase (trimStr agent) agentName)
    | none => true

/-- `source_file.rs`: `SourceFile::applies_to_agents`. -/
def SourceFile.applies_to_agents (sf : SourceFile) (agentNames : List String) : Bool :=
  if agentNames.isEmpty then true
  else
    let normalizedAgents := agentNames.map fun agent => rustToLowercase (trimStr agent)
    match sf.front_matter.allowedAgents with
    | some allowed =>
      normalizedAgents.all fun agent =>
        allowed.any fun allowedAgent => eqIgnoreAsciiCase (trimStr allowedAgent) agent
    | none =>
      match sf.front_matter.blockedAgents with
      | some blocked =>
        !(normalizedAgents.any fun agent =>
          blocked.any fun blockedAgent => eqIgnoreAsciiCase (trimStr blockedAgent) agent)
      | none => true

/-- `source_file.rs`: `filter_source_files_for_agent`. -/
def filter_source_files_for_agent (sourceFiles : List SourceFile) (agentName : String) :
    List SourceFile :=
  sourceFiles.filter fun sf => sf.applies_to_agent agentName

/-- Spec-side notion of case-insensitive membership used by claim C2: the
agent name is a member of the list up to surrounding whitespace and ASCII
case. -/
def ciMember (l : List String) (name : String) : Prop :=
  ∃ x ∈ l, eqIgnoreAsciiCase (trimStr x) (trimStr name) = true

instance (l : List String) (name : String) : Decidable (ciMember l name) := by
  unfold ciMember; infer_instance

theorem eqIgnoreAsciiCase_lower_right (a b : String) :
    eqIgnoreAsciiCase a (rustToLowercase b) = eqIgnoreAsciiCase a b := by
  simp only [eqIgnoreAsciiCase, rustToLowercase, List.map_map]
  have h : (b.data.map (asciiLowerChar ∘ asciiLowerChar)) = b.data.map asciiLowerChar := by
    simp [Function.comp, asciiLowerChar_idem]
  simp only [h]

/-! ## Association-list maps

Rust `HashMap<PathBuf, String>` values are modelled as association lists
together with an `upsert` (insert-or-replace) operation; `HashMap::insert`
and `HashMap::extend` are folds of `upsert`.  Only `lookupKey`, key
membership and key counts of such maps are ever observed, so the chosen
entry order is irrelevant.
-/

/-- Insert-or-replace, modelling `HashMap::insert`. -/
def upsert {α β : Type} [DecidableEq α] (m : List (α × β)) (k : α) (v : β) : List (α × β) :=
  (k, v) :: m.filter fun e => ¬ e.1 = k

/-- Lookup, modelling `HashMap::get`. -/
def lookupKey {α β : Type} [DecidableEq α] : List (α × β) → α → Option β
  | [], _ => none
  | (k, v) :: rest, k' => if k = k' then some v else lookupKey rest k'

/-- The keys of a map. -/
def keysOf {α β : Type} (m : List (α × β)) : List α := m.map fun e => e.1

@[simp] theorem keysOf_nil {α β : Type} : keysOf ([] : List (α × β)) = [] := rfl

@[simp] theorem keysOf_cons {α β : Type} (e : α × β) (m : List (α × β)) :
    keysOf (e :: m) = e.1 :: keysOf m := rfl

/-- A map whose keys are pairwise distinct. -/
def NodupKeys {α β : Type} (m : List (α × β)) : Prop := (keysOf m).Nodup

theorem lookupKey_filter_ne {α β : Type} [DecidableEq α] (m : List (α × β)) (k k' : α)
    (h : ¬ k = k') :
    lookupKey (m.filter fun e => ¬ e.1 = k) k' = lookupKey m k' := by
  induction m with
  | nil => rfl
  | cons e rest ih =>
    obtain ⟨ek, ev⟩ := e
    by_cases hek : ek = k
    · rw [List.filter_cons_of_neg (by simp [hek]), ih]
      show _ = if ek = k' then some ev else lookupKey rest k'
      rw [if_neg (fun hh => h (hek ▸ hh))]
    · rw [List.filter_cons_of_pos (by simp [hek])]
      show (if ek = k' then some ev else _) = (if ek = k' then some ev else _)
      split
      · rfl
      · exact ih

theorem lookupKey_upsert {α β : Type} [DecidableEq α] (m : List (α × β)) (k k' : α) (v : β) :
    lookupKey (upsert m k v) k' = if k = k' then some v else lookupKey m k' := by
  show (if k = k' then some v else lookupKey (m.filter fun e => ¬ e.1 = k) k') = _
  by_cases h : k = k'
  · simp [h]
  · simp only [h, if_false]
    exact lookupKey_filter_ne m k k' h

/-- Fold of `upsert` over a list of items with key function `kf` and value
function `vf`, modelling repeated `HashMap::insert` / `extend`. -/
def upsertFold {α β γ : Type} [DecidableEq α] (kf : γ → α) (vf : γ → β)
    (m0 : List (α × β)) (l : List γ) : List (α × β) :=
  l.foldl (fun m x => upsert m (kf x) (vf x)) m0

theorem lookupKey_upsertFold {α β γ : Type} [DecidableEq α] (kf : γ → α) (vf : γ → β)
    (l : List γ) (m0 : List (α × β)) (k : α) :
    lookupKey (upsertFold kf vf m0 l) k =
      match (l.reverse.find? fun x => kf x = k) with
      | some x => some (vf x)
      | none => lookupKey m0 k := by
  induction l generalizing m0 with
  | nil => simp [upsertFold]
  | cons x xs ih =>
    show lookupKey (upsertFold kf vf (upsert m0 (kf x) (vf x)) xs) k = _
    rw [ih]
    simp only [List.reverse_cons, List.find?_append]
    rcases hfind : (xs.reverse.find? fun x => kf x = k) with _ | x'
    · simp only [hfind, Option.none_or, lookupKey_upsert]
      by_cases hk : kf x = k
      · simp [List.find?, hk]
      · simp [List.find?, hk]
    · simp [hfind]

theorem lookupKey_upsertFold_of_agree {α β γ : Type} [DecidableEq α] (kf : γ → α) (vf : γ → β)
    (l : List γ) (m0 : List (α × β)) (r : γ) (hr : r ∈ l)
    (hagree : ∀ x ∈ l, kf x = kf r → vf x = vf r) :
    lookupKey (upsertFold kf vf m0 l) (kf r) = some (vf r) := by
  rw [lookupKey_upsertFold]
  rcases hfind : (l.reverse.find? fun x => kf x = kf r) with _ | x'
  · rw [List.find?_eq_none] at hfind
    exact absurd (by simp : decide (kf r = kf r) = true) (hfind r (List.mem_reverse.2 hr))
  · have hx' := List.find?_some hfind
    have hmem := List.mem_reverse.1 (List.mem_of_find?_eq_some hfind)
    simp only [decide_eq_true_eq] at hx'
    simp [hagree x' hmem hx']

/-- Concatenation of a list of strings (the shape in which the Rust code
accumulates documents via repeated `push_str`). -/
def strConcat (l : List String) : String := l.foldr (· ++ ·) ""

theorem foldl_append_eq_strConcat {γ : Type} (f : γ → String) (l : List γ) (acc : String) :
    l.foldl (fun c x => c ++ f x) acc = acc ++ strConcat (l.map f) := by
  induction l generalizing acc with
  | nil => simp [strConcat]
  | cons x xs ih =>
    show xs.foldl _ (acc ++ f x) = _
    rw [ih]
    show acc ++ f x ++ strConcat (xs.map f) = acc ++ (f x ++ strConcat (xs.map f))
    exact String.append_assoc ..

/-! ## Body materialisation (src/operations/body_generator.rs,
src/utils/file_utils.rs) -/

/-- `file_utils.rs`: `ensure_trailing_newline` — append a `'\n'` only when
the content does not already end with one. -/
def ensure_trailing_newline (content : String) : String :=
  if content.data.getLast? = some '\n' then content else content ++ "\n"

/-- `source_file.rs`: `SourceFile::get_body_file_name`.  Since
`base_file_name` is a file stem (no path separator), the parent-directory
branch of the Rust code is the identity and the result is
`GENERATED_FILE_PREFIX ++ stem ++ ".md"`. -/
def SourceFile.get_body_file_name (sf : SourceFile) : String :=
  generatedFilePrefixStr ++ sf.base_file_name ++ ".md"

/-- `body_generator.rs`: `generated_body_file_reference_path` (rendered
with `/` separators, as `Path::display` does on Unix). -/
def generated_body_file_reference_path (filename : String) : String :=
  aiRuleSourceDir ++ "/" ++ generatedRuleBodyDir ++ "/" ++ filename

/-- A filesystem path, as its list of components relative to the project
root. -/
abbrev FsPath := List String

/-- `body_generator.rs`: `generated_body_file_dir`. -/
def generated_body_file_dir (currentDir : FsPath) : FsPath :=
  currentDir ++ [aiRuleSourceDir, generatedRuleBodyDir]

/-- `body_generator.rs`: `generate_body_contents` — one generated body file
per rule, named from the base name with the reserved prefix, content the
body with a guaranteed trailing newline; empty map for an empty rule set. -/
def generate_body_contents (sourceFiles : List SourceFile) (currentDir : FsPath) :
    List (FsPath × String) :=
  if sourceFiles.isEmpty then []
  else
    upsertFold
      (fun sf : SourceFile => generated_body_file_dir currentDir ++ [sf.get_body_file_name])
      (fun sf => ensure_trailing_newline sf.body) [] sourceFiles

/-- The reference line emitted for one rule by
`generate_required_rule_references`. -/
def requiredRefLine (sf : SourceFile) : String :=
  "@" ++ generated_body_file_reference_path sf.get_body_file_name ++ "\n"

/-- `body_generator.rs`: `generate_required_rule_references` — one `@`-line
per `alwaysApply` rule, in declaration order. -/
def generate_required_rule_references (sourceFiles : List SourceFile) : String :=
  sourceFiles.foldl
    (fun content sf =>
      if sf.front_matter.alwaysApply then content ++ requiredRefLine sf else content) ""

theorem string_empty_append (s : String) : "" ++ s = s :=
  String.ext (by rw [String.data_append]; rfl)

theorem foldl_ite_append {γ : Type} (p : γ → Bool) (f : γ → String) (l : List γ) (acc : String) :
    l.foldl (fun c x => if p x then c ++ f x else c) acc
      = acc ++ strConcat ((l.filter p).map f) := by
  induction l generalizing acc with
  | nil => show acc = acc ++ ""; exact (String.ext (by simp)).symm
  | cons x xs ih =>
    by_cases h : p x = true
    · show xs.foldl _ (if p x = true then acc ++ f x else acc) = _
      rw [if_pos h, ih, List.filter_cons_of_pos h, List.map_cons]
      show acc ++ f x ++ strConcat _ = acc ++ (f x ++ strConcat _)
      exact String.append_assoc ..
    · show xs.foldl _ (if p x = true then acc ++ f x else acc) = _
      rw [if_neg h, ih, List.filter_cons_of_neg h]

theorem generate_required_rule_references_eq (sourceFiles : List SourceFile) :
    generate_required_rule_references sourceFiles =
      strConcat ((sourceFiles.filter fun sf => sf.front_matter.alwaysApply).map requiredRefLine) := by
  unfold generate_required_rule_references
  rw [foldl_ite_append, string_empty_append]

/-! ## Optional-rules index (src/operations/optional_rules.rs) -/

/-- Modelled from the spec: the shared header of the optional-rules index.
The template asset `src/templates/optional_rules.md` (included at compile
time via `OPTIONAL_RULES_TEMPLATE`) is not part of the source tree; per
the spec the index "consists of a shared header followed by one line per
optional rule", and the source documents the header text as
`# Optional Rules (use when relevant):` followed by a blank line. -/
def optionalRulesHeaderStr : String := "# Optional Rules (use when relevant):\n\n"

/-- Modelled from the spec: instantiation of the optional-rules template
(`OPTIONAL_RULES_TEMPLATE.replace` of the rule-entries placeholder in the
source): the shared header followed by the accumulated rule entries. -/
def applyOptionalRulesTemplate (ruleEntries : String) : String :=
  optionalRulesHeaderStr ++ ruleEntries

/-- The entry emitted for one optional rule:
`description: <path-to-generated-body>` followed by a blank line. -/
def optionalRuleEntry (sf : SourceFile) : String :=
  (sf.front_matter.description ++ ": " ++
    generated_body_file_reference_path sf.get_body_file_name) ++ "\n\n"

/-- `optional_rules.rs`: `generate_optional_rules_content` — empty when no
rule has `alwaysApply == false`, otherwise the template instantiated with
one entry per optional rule in declaration order. -/
def generate_optional_rules_content (sourceFiles : List SourceFile) : String :=
  let optionalFiles := sourceFiles.filter fun f => !f.front_matter.alwaysApply
  if optionalFiles.isEmpty then ""
  else
    applyOptionalRulesTemplate
      (optionalFiles.foldl (fun acc sf => acc ++ optionalRuleEntry sf) "")

/-- C6: for every list of rules, the generated optional-rules index is
empty when no rule has `alwaysApply = false`, and otherwise consists of
the shared header followed by one entry per optional rule — in declaration
order, each exactly once, formatted `description: <path-to-generated-body>`
followed by a blank line — with no entry for any always-apply rule. -/
theorem optional_rules_index_spec (sourceFiles : List SourceFile) :
    generate_optional_rules_content sourceFiles =
      if (sourceFiles.filter fun f => !f.front_matter.alwaysApply).isEmpty then ""
      else
        optionalRulesHeaderStr ++
          strConcat ((sourceFiles.filter fun f => !f.front_matter.alwaysApply).map
            optionalRuleEntry) := by
  unfold generate_optional_rules_content
  by_cases h : (sourceFiles.filter fun f => !f.front_matter.alwaysApply).isEmpty
  · simp [h]
  · simp only [h, if_false]
    unfold applyOptionalRulesTemplate
    rw [foldl_append_eq_strConcat optionalRuleEntry, string_empty_append]

/-- The claim-side reading of "exactly one trailing newline": the last
character is a newline and the character before it is not. -/
def hasExactlyOneTrailingNewline (s : String) : Prop :=
  s.data.getLast? = some '\n' ∧ s.data.dropLast.getLast? ≠ some '\n'

instance (s : String) : Decidable (hasExactlyOneTrailingNewline s) := by
  unfold hasExactlyOneTrailingNewline; infer_instance

/-- Counterexample to C3 as stated: for a rule whose body already ends in
two newlines, the generated body file content keeps both (the code only
guarantees a trailing newline, appending one when absent), so it does not
have exactly one trailing newline. -/
theorem body_roundtrip_counterexample :
    lookupKey
        (generate_body_contents
          [{ front_matter :=
              { description := "D", alwaysApply := true, fileMatchingPatterns := none,
                allowedAgents := none, blockedAgents := none },
             body := "Body text\n\n", base_file_name := "r" }] [])
        (generated_body_file_dir [] ++ ["ai-rules-generated-r.md"])
      = some "Body text\n\n"
    ∧ ¬ hasExactlyOneTrailingNewline "Body text\n\n" := by
  constructor
  · decide
  · decide

/-- C3 (amended): for a rule with `alwaysApply = true` and body `B`, the
generated body file content equals `B` with a guaranteed trailing newline
(one is appended exactly when `B` does not already end with a newline;
pre-existing trailing newlines of `B` are preserved), and the
required-reference document decomposes into reference lines among which
the line `@<path-to-that-body>` appears, every line being the
`@`-reference of some always-apply rule's generated body (so no line
carries a rule's description text). -/
theorem body_roundtrip (sourceFiles : List SourceFile) (currentDir : FsPath) (r : SourceFile)
    (hr : r ∈ sourceFiles)
    (hnames : ∀ x ∈ sourceFiles, x.get_body_file_name = r.get_body_file_name → x = r) :
    lookupKey (generate_body_contents sourceFiles currentDir)
        (generated_body_file_dir currentDir ++ [r.get_body_file_name])
      = some (ensure_trailing_newline r.body)
    ∧ (r.front_matter.alwaysApply = true →
        ∃ ls, generate_required_rule_references sourceFiles = strConcat ls ∧
          requiredRefLine r ∈ ls ∧
          ∀ l ∈ ls, ∃ r' ∈ sourceFiles,
            r'.front_matter.alwaysApply = true ∧ l = requiredRefLine r') := by
  constructor
  · unfold generate_body_contents
    have hne : ¬ sourceFiles.isEmpty = true := by
      intro h
      rw [List.isEmpty_iff] at h
      rw [h] at hr
      exact absurd hr (List.not_mem_nil r)
    rw [if_neg hne]
    exact lookupKey_upsertFold_of_agree _ _ sourceFiles [] r hr
      (fun x hx hk => by
        have hname : x.get_body_file_name = r.get_body_file_name := by
          have := List.append_cancel_left hk
          simpa using this
        rw [hnames x hx hname])
  · intro halways
    refine ⟨(sourceFiles.filter fun sf => sf.front_matter.alwaysApply).map requiredRefLine,
      generate_required_rule_references_eq sourceFiles, ?_, ?_⟩
    · exact List.mem_map.2 ⟨r, List.mem_filter.2 ⟨hr, by simpa using halways⟩, rfl⟩
    · intro l hl
      obtain ⟨r', hr', rfl⟩ := List.mem_map.1 hl
      obtain ⟨hmem, hp⟩ := List.mem_filter.1 hr'
      exact ⟨r', hmem, by simpa using hp, rfl⟩

/-- Witness for C3 (amended) at a concrete always-apply rule. -/
theorem body_roundtrip_witness :
    lookupKey
        (generate_body_contents
          [{ front_matter :=
              { description := "D", alwaysApply := true, fileMatchingPatterns := none,
                allowedAgents := none, blockedAgents := none },
             body := "B", base_file_name := "r" }] [])
        (generated_body_file_dir [] ++ ["ai-rules-generated-r.md"])
      = some "B\n" := by
  have h := (body_roundtrip
    [{ front_matter :=
        { description := "D", alwaysApply := true, fileMatchingPatterns := none,
          allowedAgents := none, blockedAgents := none },
       body := "B", base_file_name := "r" }] []
    { front_matter :=
        { description := "D", alwaysApply := true, fileMatchingPatterns := none,
          allowedAgents := none, blockedAgents := none },
      body := "B", base_file_name := "r" }
    (List.mem_singleton.2 rfl) (fun x hx _ => List.mem_singleton.1 hx)).1
  exact h

/-! ## JSON deep merge (src/agents/firebender.rs, `merge_json_objects`) -/

/-- A JSON value (`serde_json::Value`), with numbers abstracted to `Int`
(the merge logic never inspects numbers). -/
inductive Json where
  | null
  | bool (b : Bool)
  | num (n : Int)
  | str (s : String)
  | arr (elems : List Json)
  | obj (entries : List (String × Json))
deriving Repr

/-- `Value::is_object`. -/
def Json.isObj : Json → Bool
  | .obj _ => true
  | _ => false

mutual

/-- The entry loop of `merge_json_objects`: fold the overlay's entries
into the base object's entries. -/
def mergeInto (baseEntries : List (String × Json)) :
    List (String × Json) → List (String × Json)
  | [] => baseEntries
  | (k, v) :: rest => mergeInto (mergeEntry baseEntries k v) rest
termination_by l => (sizeOf l, 0)

/-- One step of the entry loop: if the base already has key `k` and both
the existing value and `v` are objects, merge recursively in place;
otherwise insert/replace with `v` (`base_obj.insert(key, value.clone())`). -/
def mergeEntry (baseEntries : List (String × Json)) (k : String) (v : Json) :
    List (String × Json) :=
  match baseEntries with
  | [] => [(k, v)]
  | (k', v') :: rest =>
    if k' = k then
      match v', v with
      | .obj bV, .obj oV => (k', .obj (mergeInto bV oV)) :: rest
      | _, _ => (k', v) :: rest
    else (k', v') :: mergeEntry rest k v
termination_by (sizeOf v, sizeOf baseEntries)

end

/-- `firebender.rs`: `merge_json_objects(base, overlay)` — acts only when
both values are objects (then merges the overlay's entries into the base,
key by key); otherwise the base is left unchanged. -/
def merge_json_objects : Json → Json → Json
  | .obj baseEntries, .obj overlayEntries => .obj (mergeInto baseEntries overlayEntries)
  | base, _ => base

theorem lookupKey_eq_none_iff {α β : Type} [DecidableEq α] (m : List (α × β)) (k : α) :
    lookupKey m k = none ↔ k ∉ keysOf m := by
  induction m with
  | nil => simp [lookupKey, keysOf]
  | cons e rest ih =>
    obtain ⟨ek, ev⟩ := e
    by_cases hek : ek = k
    · simp [lookupKey, hek, keysOf]
    · simp [lookupKey, hek, keysOf, Ne.symm hek]
      simpa [keysOf] using ih

/-- The value stored for key `k` after one `mergeEntry` step. -/
def mergedValue (b : List (String × Json)) (k : String) (v : Json) : Json :=
  match lookupKey b k, v with
  | some (.obj bV), .obj oV => .obj (mergeInto bV oV)
  | _, _ => v

theorem lookupKey_mergeEntry_self (b : List (String × Json)) (k : String) (v : Json) :
    lookupKey (mergeEntry b k v) k = some (mergedValue b k v) := by
  induction b with
  | nil =>
    cases v <;> simp [mergeEntry, mergedValue, lookupKey]
  | cons e rest ih =>
    obtain ⟨ek, ev⟩ := e
    by_cases hek : ek = k
    · subst hek
      cases ev <;> cases v <;>
        simp [mergeEntry, mergedValue, lookupKey]
    · rw [show mergeEntry ((ek, ev) :: rest) k v = (ek, ev) :: mergeEntry rest k v from by
        rw [mergeEntry.eq_def]; simp [hek]]
      simp only [lookupKey, hek, if_false, ih]
      have : mergedValue ((ek, ev) :: rest) k v = mergedValue rest k v := by
        simp [mergedValue, lookupKey, hek]
      rw [this]

theorem lookupKey_mergeEntry_ne (b : List (String × Json)) (k k' : String) (v : Json)
    (h : ¬ k' = k) :
    lookupKey (mergeEntry b k v) k' = lookupKey b k' := by
  have hk : ¬ k = k' := fun hh => h hh.symm
  induction b with
  | nil => simp [mergeEntry, lookupKey, hk]
  | cons e rest ih =>
    obtain ⟨ek, ev⟩ := e
    by_cases hek : ek = k
    · subst hek
      cases ev <;> cases v <;> simp [mergeEntry, lookupKey, hk]
    · rw [show mergeEntry ((ek, ev) :: rest) k v = (ek, ev) :: mergeEntry rest k v from by
        rw [mergeEntry.eq_def]; simp [hek]]
      simp only [lookupKey, ih]

theorem keysOf_mergeEntry (b : List (String × Json)) (k : String) (v : Json) :
    keysOf (mergeEntry b k v) =
      if k ∈ keysOf b then keysOf b else keysOf b ++ [k] := by
  induction b with
  | nil => cases v <;> simp [mergeEntry, keysOf]
  | cons e rest ih =>
    obtain ⟨ek, ev⟩ := e
    by_cases hek : ek = k
    · subst hek
      cases ev <;> cases v <;> simp [mergeEntry, keysOf]
    · rw [show mergeEntry ((ek, ev) :: rest) k v = (ek, ev) :: mergeEntry rest k v from by
        rw [mergeEntry.eq_def]; simp [hek]]
      have hke : ¬ k = ek := fun hh => hek hh.symm
      by_cases hmem : k ∈ keysOf rest
      · simp [ih, hmem, hke]
      · simp [ih, hmem, hke]

theorem nodupKeys_mergeEntry (b : List (String × Json)) (k : String) (v : Json)
    (hb : NodupKeys b) : NodupKeys (mergeEntry b k v) := by
  unfold NodupKeys
  rw [keysOf_mergeEntry]
  by_cases hmem : k ∈ keysOf b
  · simpa [hmem] using hb
  · rw [if_neg hmem, List.nodup_append_comm]
    exact List.nodup_cons.2 ⟨hmem, hb⟩

theorem mergeInto_lookup (o : List (String × Json)) :
    ∀ (b : List (String × Json)) (k : String), NodupKeys b → NodupKeys o →
    lookupKey (mergeInto b o) k =
      match lookupKey b k, lookupKey o k with
      | some bv, some ov =>
        some (if bv.isObj = true ∧ ov.isObj = true then merge_json_objects bv ov else ov)
      | some bv, none => some bv
      | none, some ov => some ov
      | none, none => none := by
  induction o with
  | nil =>
    intro b k _ _
    show lookupKey (mergeInto b []) k = _
    rw [show mergeInto b [] = b from by rw [mergeInto.eq_def]]
    cases hlb : lookupKey b k <;> simp [lookupKey]
  | cons e rest ih =>
    obtain ⟨k0, v0⟩ := e
    intro b k hb ho
    have hcons : k0 ∉ keysOf rest ∧ (keysOf rest).Nodup :=
      List.nodup_cons.1 (by simpa [NodupKeys, keysOf] using ho)
    rw [show mergeInto b ((k0, v0) :: rest) = mergeInto (mergeEntry b k0 v0) rest from by
      rw [mergeInto.eq_def]]
    rw [ih (mergeEntry b k0 v0) k (nodupKeys_mergeEntry b k0 v0 hb) hcons.2]
    by_cases hk : k = k0
    · subst hk
      rw [lookupKey_mergeEntry_self, (lookupKey_eq_none_iff _ _).2 hcons.1,
        show lookupKey ((k, v0) :: rest) k = some v0 from by simp [lookupKey]]
      cases hlb : lookupKey b k with
      | none => cases v0 <;> simp [mergedValue, hlb]
      | some bv => cases bv <;> cases v0 <;> simp [mergedValue, hlb, Json.isObj, merge_json_objects]
    · have hk0k : ¬ k0 = k := fun hh => hk hh.symm
      rw [lookupKey_mergeEntry_ne b k0 k v0 hk,
        show lookupKey ((k0, v0) :: rest) k = lookupKey rest k from by
          simp [lookupKey, hk0k]]

/-! ## Rule parsing (src/models/source_file.rs, `SourceFile::parse`) -/

/-- Split a character list at the first occurrence of `pat` (Rust
`str::splitn` step): the part before the occurrence and the remainder
after it. -/
def splitFirst (pat : List Char) : List Char → Option (List Char × List Char)
  | [] => if pat.isPrefixOf ([] : List Char) then some ([], []) else none
  | c :: rest =>
    if pat.isPrefixOf (c :: rest) then some ([], (c :: rest).drop pat.length)
    else (splitFirst pat rest).map fun p => (c :: p.1, p.2)

/-- Rust `content.splitn(3, pat)`: at most three pieces, the last being the
unsplit remainder. -/
def splitnThree (pat s : List Char) : List (List Char) :=
  match splitFirst pat s with
  | none => [s]
  | some (a, r1) =>
    match splitFirst pat r1 with
    | none => [a, r1]
    | some (b, r2) => [a, b, r2]

/-- Rust `Path::file_stem` rendered on our string paths: the file name
(after the last `/`) up to its last `.`, where a leading `.` with no other
dot keeps the entire name. -/
def fileStem (p : String) : Option String :=
  let name := (p.data.reverse.takeWhile fun c => ¬ c = '/').reverse
  match name with
  | [] => none
  | c :: rest =>
    if '.' ∈ rest then
      some ⟨c :: ((rest.reverse.dropWhile fun x => ¬ x = '.').drop 1).reverse⟩
    else some ⟨c :: rest⟩

/-- Rust `Path::extension` on a file name: the portion after the last `.`,
or none when there is no dot beyond a leading one. -/
def fileExtension (name : String) : Option String :=
  match name.data with
  | [] => none
  | _ :: rest =>
    if '.' ∈ rest then some ⟨(rest.reverse.takeWhile fun x => ¬ x = '.').reverse⟩
    else none

/-- `source_file.rs`: `FrontMatter::with_defaults_from_path` — description
defaults to the stem of the path's final component (or `"Rule"`),
`alwaysApply = true`, no lists. -/
def FrontMatter.with_defaults_from_path (filePath : String) : FrontMatter :=
  let fileName : String := ⟨(filePath.data.reverse.takeWhile fun x => ¬ x = '/').reverse⟩
  let description :=
    match fileStem fileName with
    | some s => if s.data.isEmpty then "Rule" else s
    | none => "Rule"
  { description := description, alwaysApply := true, fileMatchingPatterns := none,
    allowedAgents := none, blockedAgents := none }

/-- `source_file.rs`: `SourceFile::parse`.  The YAML frontmatter parser
(`serde_yaml::from_str`) is passed in as a function `yamlParse`; the
warning printed when both agent lists are set has no effect on the result
and is omitted.  Empty trimmed content is a hard error; content without a
leading frontmatter delimiter becomes a default-frontmatter rule whose
body is the whole (left-trimmed) content; otherwise the content is split
at most three ways on the delimiter, a missing closing delimiter or a
missing body segment is an error, and the body is left-trimmed only. -/
def parseSourceFile (yamlParse : String → Except String FrontMatter)
    (content filePath : String) : Except String SourceFile :=
  let content := trimStartStr content
  if content.data.isEmpty then
    .error ("File '" ++ filePath ++ "' is empty")
  else if ¬ frontmatterDelimiter.data.isPrefixOf content.data then
    .ok { front_matter := FrontMatter.with_defaults_from_path filePath,
          body := content, base_file_name := "" }
  else if content.data.length < frontmatterDelimiter.data.length then
    -- unreachable once the delimiter is a prefix; mirrored from the source
    .error ("File '" ++ filePath ++ "' is too short to contain YAML frontmatter")
  else
    match splitnThree frontmatterDelimiter.data content.data with
    | [_] =>
      .error ("Missing closing frontmatter delimiter '---' in file '" ++ filePath ++ "'")
    | [_, _] =>
      .error ("Missing body content after frontmatter in file '" ++ filePath ++ "'")
    | _ :: frontmatterStr :: bodySeg :: _ =>
      match yamlParse ⟨frontmatterStr⟩ with
      | .error e => .error e
      | .ok fm =>
        .ok { front_matter := fm, body := trimStartStr ⟨bodySeg⟩, base_file_name := "" }
    | [] =>
      .error ("Missing closing frontmatter delimiter '---' in file '" ++ filePath ++ "'")

/-- C9: parsing a rule document whose content is empty or consists only of
whitespace returns a parse error (it is not treated as a frontmatter-less
rule with the whole content as body). -/
theorem parse_whitespace_only_is_error (yamlParse : String → Except String FrontMatter)
    (content filePath : String) (h : content.data.all isRustWhitespace = true) :
    parseSourceFile yamlParse content filePath
      = .error ("File '" ++ filePath ++ "' is empty") := by
  have hnil : content.data.dropWhile isRustWhitespace = [] :=
    List.dropWhile_eq_nil_iff.2 fun x hx => by
      have := List.all_eq_true.1 h x hx
      simpa using this
  unfold parseSourceFile
  rw [show trimStartStr content = ⟨[]⟩ from by unfold trimStartStr; rw [hnil]]
  rfl

/-- Witness for C9 at a concrete whitespace-only document. -/
theorem parse_whitespace_only_is_error_witness :
    parseSourceFile (fun _ => .error "no yaml") " \n\t " "rules.md"
      = .error ("File '" ++ "rules.md" ++ "' is empty") :=
  parse_whitespace_only_is_error (fun _ => .error "no yaml") " \n\t " "rules.md" (by decide)

/-! ## Filesystem model

A directory tree is modelled as two association lists: regular files
(path, as list of components relative to the project root, to byte
content) and symbolic links (link path to the stored, possibly relative,
target path).  Directories are implicit: a directory "exists" when some
entry lies strictly below it, matching the observable behaviour of the
`exists`/`read_dir` calls the code makes (the code never creates empty
directories without then writing into them).  `fs::write` overwrites
regular files (the cleaners run first, so no symlink ever sits at a
written path), `remove_dir_all` removes a subtree, `remove_file` removes
one entry. -/
structure FS where
  files : List (FsPath × String)
  symlinks : List (FsPath × FsPath)
deriving Repr

/-- Is `p` strictly below directory `dir`? -/
def pathUnder (dir p : FsPath) : Bool :=
  dir.isPrefixOf p && decide (dir.length < p.length)

/-- Is `p` a direct child of directory `dir`? -/
def isDirectChild (dir p : FsPath) : Bool :=
  dir.isPrefixOf p && decide (p.length = dir.length + 1)

/-- Model of Rust `str::starts_with`. -/
def strStartsWith (s pre : String) : Bool := pre.data.isPrefixOf s.data

def FS.readFile (fs : FS) (p : FsPath) : Option String := lookupKey fs.files p

def FS.isFile (fs : FS) (p : FsPath) : Bool := (lookupKey fs.files p).isSome

def FS.isSymlink (fs : FS) (p : FsPath) : Bool := (lookupKey fs.symlinks p).isSome

/-- `Path::exists` for the states our theorems inspect (no broken
symlinks at the queried paths). -/
def FS.pathExists (fs : FS) (p : FsPath) : Bool := fs.isFile p || fs.isSymlink p

def FS.dirExists (fs : FS) (dir : FsPath) : Bool :=
  (fs.files.any fun e => pathUnder dir e.1) || (fs.symlinks.any fun e => pathUnder dir e.1)

/-- `fs::remove_dir_all`: drop every entry below `dir`. -/
def FS.removeSubtree (fs : FS) (dir : FsPath) : FS :=
  { files := fs.files.filter fun e => !pathUnder dir e.1,
    symlinks := fs.symlinks.filter fun e => !pathUnder dir e.1 }

/-- `fs::remove_file` at `p` (file or symlink), a no-op when absent. -/
def FS.removeEntry (fs : FS) (p : FsPath) : FS :=
  { files := fs.files.filter fun e => ¬ e.1 = p,
    symlinks := fs.symlinks.filter fun e => ¬ e.1 = p }

/-- `file_utils.rs`: `write_directory_files` — create parents and write
every mapping, overwriting existing files. -/
def FS.writeFiles (fs : FS) (m : List (FsPath × String)) : FS :=
  { fs with files := m.foldl (fun acc e => upsert acc e.1 e.2) fs.files }

/-- `file_utils.rs`: `create_relative_symlink` — remove whatever sits at
the link path, then create the symlink with the given stored target. -/
def FS.addSymlink (fs : FS) (p target : FsPath) : FS :=
  { files := fs.files.filter fun e => ¬ e.1 = p,
    symlinks := upsert fs.symlinks p target }

/-- `file_utils.rs`: `calculate_relative_path` — as many `..` components
as the output path has separators, then the target relative to the root. -/
def calculate_relative_path (fromPath targetRel : FsPath) : FsPath :=
  List.replicate (fromPath.length - 1) ".." ++ targetRel

/-- Resolution of `..` components against the components already seen,
modelling what `Path::canonicalize` does to the pure `..` structure of
the paths involved (none of the resolved prefixes is itself a symlink in
the states our theorems inspect). -/
def canonicalizePath (p : FsPath) : FsPath :=
  p.foldl (fun acc c => if c = ".." then acc.dropLast else acc ++ [c]) []

/-- Insertion into a by-filename sorted listing. -/
def insertSortedByName (x : String × String) :
    List (String × String) → List (String × String)
  | [] => [x]
  | y :: ys => if x.1.data ≤ y.1.data then x :: y :: ys else y :: insertSortedByName x ys

/-- `file_utils.rs`: `find_files_by_extension` followed by reading each
file: the `(file name, content)` pairs of the regular files directly in
`dir` carrying extension `ext`, sorted by file name (the Rust code sorts
the paths for deterministic output). -/
def filesByExtensionIn (fs : FS) (dir : FsPath) (ext : String) : List (String × String) :=
  (fs.files.filterMap fun e =>
    match e.1.getLast? with
    | some name =>
      if isDirectChild dir e.1 && (fileExtension name == some ext) then some (name, e.2)
      else none
    | none => none).foldr insertSortedByName []

/-! ## Source reading and symlink-mode detection
(src/operations/source_reader.rs) -/

/-- `source_reader.rs`: `get_md_files_in_ai_rules_dir` (file names with
contents, sorted). -/
def mdFilesInAiRulesDir (fs : FS) (currentDir : FsPath) : List (String × String) :=
  filesByExtensionIn fs (currentDir ++ [aiRuleSourceDir]) "md"

/-- `source_reader.rs`: `is_pure_markdown` — the (left-trimmed) content
does not start with the YAML frontmatter delimiter. -/
def is_pure_markdown (content : String) : Bool :=
  !(frontmatterDelimiter.data.isPrefixOf (trimStartStr content).data)

/-- `source_reader.rs`: `detect_symlink_mode` — exactly one `.md` file in
the rule directory, named `AGENTS.md`, containing no frontmatter. -/
def detect_symlink_mode (fs : FS) (currentDir : FsPath) : Bool :=
  match mdFilesInAiRulesDir fs currentDir with
  | [(name, content)] => name == agentsMdFilename && is_pure_markdown content
  | _ => false

/-- `source_reader.rs`: `find_source_files` / `parse_source_files` —
parse every `.md` file of the rule directory in sorted order, setting
`base_file_name` from the file stem; the first parse error aborts. -/
def find_source_files (yamlParse : String → Except String FrontMatter)
    (fs : FS) (currentDir : FsPath) : Except String (List SourceFile) :=
  (mdFilesInAiRulesDir fs currentDir).mapM fun nc => do
    let sf ← parseSourceFile yamlParse nc.2 (aiRuleSourceDir ++ "/" ++ nc.1)
    match fileStem nc.1 with
    | some stem => .ok { sf with base_file_name := stem }
    | none => .error ("Invalid filename for path: " ++ nc.1)

/-! ## The agent generators

`registry.rs` wires one generator per agent (with `use_claude_skills`
as `run_generate`/`check_project_status` receive it; the model fixes it
to `false`, the non-skills mode).  Embedded here are the two uniform
families — `SingleFileBasedGenerator` (goose, codex, copilot, one
aggregated reference file) and `MarkdownBasedGenerator` (cline, roo,
kilocode, a directory of per-rule markdown files), plus the optional
external MCP generator (roo) — and the bespoke `ClaudeGenerator`
(`claude.rs`) together with its command and skills generators.  The
callers pass a `follow_symlinks` flag to `generate_agent_contents` and
`check_agent_contents` that none of the implementations in the snapshot
accept; the model follows the implementations, which do not consult it.
The four remaining bespoke generators (cursor's `.mdc` rendering,
firebender's JSON assembly with overlay merging, amp's group-filtered
pooled `AGENTS.md`, gemini's `GEMINI.md` plus `.gemini/settings.json`
merge) are not embedded, and the theorems quantifying over the modelled
registry are restricted accordingly. -/

inductive AgentShape where
  | singleFile (outputFilename : String)
  | markdownDir (agentDir : String) (rulesSubdir : Option String)
  | claudeMd (outputFilename : String)
deriving Repr, DecidableEq

/-- `constants.rs`: `SKILL_FILENAME`. -/
def skillFilename : String := "SKILL.md"

/-- `constants.rs`: `GENERATED_COMMAND_SUFFIX`. -/
def generatedCommandSuffix : String := "ai-rules"

/-- An agent as the callers see it through the `AgentRuleGenerator`
trait object: its name, the shape of its rule output
(`generate_agent_contents`/`check_agent_contents`/`clean`), and the
configuration of its optional MCP, command and skills generators
(`mcp_generator`/`command_generator`/`skills_generator`; `none` models
the trait's `None` default).  A command generator is an
`ExternalCommandsGenerator`: target directory plus optional
subdirectory; a skills generator is an `ExternalSkillsGenerator`:
target directory. -/
structure AgentTool where
  name : String
  shape : AgentShape
  mcpOutputPath : Option FsPath
  commandTarget : Option (FsPath × Option String)
  skillsTarget : Option FsPath
deriving Repr, DecidableEq

/-- The modelled agents other than claude: those whose
check-after-generate succeeds (claude's does not — its non-skills
`generate_agent_contents` is empty while its `check_agent_contents`
demands `CLAUDE.md`; see the C1 counterexample). -/
def stdRegistry : List AgentTool :=
  [⟨"goose", .singleFile agentsMdFilename, none, none, none⟩,
   ⟨"codex", .singleFile agentsMdFilename, none, none, none⟩,
   ⟨"copilot", .singleFile agentsMdFilename, none, none, none⟩,
   ⟨"cline", .markdownDir ".clinerules" none, none, none, none⟩,
   ⟨"roo", .markdownDir ".roo" (some "rules"), some [".roo", "mcp.json"], none, none⟩,
   ⟨"kilocode", .markdownDir ".kilocode" (some "rules"), none, none, none⟩]

/-- Modelled from the spec: `generate_all_rule_references`, imported by
`single_file_based.rs` from `operations` but whose defining file is not
in the source tree — per the spec's reference mode, the required-rule
reference lines followed, when any optional rule exists, by a blank line
and a reference to the optional-rules index document
(`ai-rules-generated-optional.md`, the name `single_file_based.rs` and
`markdown_based.rs` use for it). -/
def generate_all_rule_references (sourceFiles : List SourceFile) : String :=
  generate_required_rule_references sourceFiles ++
    (if sourceFiles.any fun f => !f.front_matter.alwaysApply then
      "\n" ++ "@" ++ generated_body_file_reference_path "ai-rules-generated-optional.md" ++ "\n"
    else "")

/-- `single_file_based.rs`: `generate_agent_file_contents`. -/
def generate_agent_file_contents (sourceFiles : List SourceFile) (currentDir : FsPath)
    (outputFilename : String) : List (FsPath × String) :=
  if sourceFiles.isEmpty then []
  else [(currentDir ++ [outputFilename], generate_all_rule_references sourceFiles)]

/-- `single_file_based.rs`: `check_in_sync`. -/
def check_in_sync (fs : FS) (sourceFiles : List SourceFile) (currentDir : FsPath)
    (outputFilename : String) : Bool :=
  let p := currentDir ++ [outputFilename]
  if sourceFiles.isEmpty then !fs.pathExists p
  else if !fs.pathExists p then false
  else
    match fs.readFile p with
    | some actual => actual == generate_all_rule_references sourceFiles
    | none => false

/-- Modelled from the spec: `generate_inlined_required_content`, imported
by `claude.rs` from `operations` but whose defining file is not in the
source tree — per the spec's inline mode, the required (always-apply)
rules in order, each as an optional `# <description>` header (present
when the rule has a non-empty description) plus the body with a trailing
newline guaranteed, joined by a single blank line between rules. -/
def generate_inlined_required_content (sourceFiles : List SourceFile) : String :=
  String.intercalate "\n"
    ((sourceFiles.filter fun sf => sf.front_matter.alwaysApply).map fun sf =>
      (if sf.front_matter.description.data.isEmpty then ""
       else "# " ++ sf.front_matter.description ++ "\n\n") ++
      ensure_trailing_newline sf.body)

/-- `claude.rs`: `check_agent_contents` with `skills_mode = false` — with
no rules the output file must not exist; otherwise it must exist and hold
exactly the inlined required content (the trailing skills check is the
non-skills `Ok(true)` branch). -/
def claude_check_agent_contents (fs : FS) (sourceFiles : List SourceFile)
    (currentDir : FsPath) (outputFilename : String) : Bool :=
  let p := currentDir ++ [outputFilename]
  if sourceFiles.isEmpty then !fs.pathExists p
  else if !fs.pathExists p then false
  else
    match fs.readFile p with
    | some actual => actual == generate_inlined_required_content sourceFiles
    | none => false

/-- `markdown_based.rs`: `get_rules_dir_path`. -/
def get_rules_dir_path (currentDir : FsPath) (agentDir : String)
    (rulesSubdir : Option String) : FsPath :=
  match rulesSubdir with
  | some sub => currentDir ++ [agentDir, sub]
  | none => currentDir ++ [agentDir]

/-- `markdown_based.rs`: `generate_markdown_agent_contents` — one
generated markdown file per always-apply rule (body with trailing
newline) plus, when non-empty, the optional-rules index. -/
def generate_markdown_agent_contents (sourceFiles : List SourceFile) (currentDir : FsPath)
    (agentDir : String) (rulesSubdir : Option String) : List (FsPath × String) :=
  if sourceFiles.isEmpty then []
  else
    let rulesDir := get_rules_dir_path currentDir agentDir rulesSubdir
    let m := upsertFold
      (fun sf : SourceFile => rulesDir ++ [sf.get_body_file_name])
      (fun sf => ensure_trailing_newline sf.body) []
      (sourceFiles.filter fun sf => sf.front_matter.alwaysApply)
    let optionalContent := generate_optional_rules_content sourceFiles
    if optionalContent.data.isEmpty then m
    else upsert m (rulesDir ++ ["ai-rules-generated-optional.md"]) optionalContent

/-- `file_utils.rs`: `check_directory_exact_match` — the directory exists,
the number of regular files directly in it equals the expected map's
size, and every expected path holds exactly the expected bytes. -/
def check_directory_exact_match (fs : FS) (dir : FsPath)
    (expected : List (FsPath × String)) : Bool :=
  if !fs.dirExists dir then false
  else
    decide ((fs.files.filter fun e => isDirectChild dir e.1).length = expected.length) &&
    expected.all fun e =>
      match fs.readFile e.1 with
      | some actual => actual == e.2
      | none => false

/-- `markdown_based.rs`: `check_markdown_agent_sync`. -/
def check_markdown_agent_sync (fs : FS) (sourceFiles : List SourceFile)
    (currentDir : FsPath) (agentDir : String) (rulesSubdir : Option String) : Bool :=
  let rulesDir := get_rules_dir_path currentDir agentDir rulesSubdir
  if sourceFiles.isEmpty then !fs.dirExists rulesDir
  else
    check_directory_exact_match fs rulesDir
      (generate_markdown_agent_contents sourceFiles currentDir agentDir rulesSubdir)

/-- `rule_generator.rs` dispatch: `generate_agent_contents`.  For claude
with `skills_mode = false`, `claude.rs` returns the empty map (its
comment delegates non-skills output to `generate_inlined_symlink`, which
neither `generate.rs` nor `status.rs` ever invokes). -/
def AgentTool.generate_agent_contents (a : AgentTool) (sourceFiles : List SourceFile)
    (currentDir : FsPath) : List (FsPath × String) :=
  match a.shape with
  | .singleFile out => generate_agent_file_contents sourceFiles currentDir out
  | .markdownDir d sub => generate_markdown_agent_contents sourceFiles currentDir d sub
  | .claudeMd _ => []

/-- `rule_generator.rs` dispatch: `check_agent_contents`. -/
def AgentTool.check_agent_contents (a : AgentTool) (fs : FS)
    (sourceFiles : List SourceFile) (currentDir : FsPath) : Bool :=
  match a.shape with
  | .singleFile out => check_in_sync fs sourceFiles currentDir out
  | .markdownDir d sub => check_markdown_agent_sync fs sourceFiles currentDir d sub
  | .claudeMd out => claude_check_agent_contents fs sourceFiles currentDir out

/-- The symlink-mode output location of an agent (`single_file_based.rs`,
`markdown_based.rs` and `claude.rs`, `generate_symlink`/`check_symlink`). -/
def AgentTool.symlinkOutputPath (a : AgentTool) : FsPath :=
  match a.shape with
  | .singleFile out => [out]
  | .markdownDir d sub =>
    match sub with
    | some s => [d, s, agentsMdFilename]
    | none => [d, agentsMdFilename]
  | .claudeMd out => [out]

/-- `file_utils.rs`: `create_symlink_to_agents_md` — no-op (returning
`false`) when the source document is absent, otherwise create a relative
symlink from the agent's output location to `ai-rules/AGENTS.md`. -/
def create_symlink_to_agents_md (fs : FS) (currentDir outputPath : FsPath) : FS × Bool :=
  let src := currentDir ++ [aiRuleSourceDir, agentsMdFilename]
  if !fs.isFile src then (fs, false)
  else
    (fs.addSymlink (currentDir ++ outputPath)
      (calculate_relative_path outputPath [aiRuleSourceDir, agentsMdFilename]), true)

/-- `file_utils.rs`: `check_agents_md_symlink` — the link exists, its
target resolved from the link's parent directory canonicalizes to
`ai-rules/AGENTS.md`, and that source document exists. -/
def check_agents_md_symlink (fs : FS) (currentDir symlinkPath : FsPath) : Bool :=
  match lookupKey fs.symlinks symlinkPath with
  | none => false
  | some target =>
    let expected := currentDir ++ [aiRuleSourceDir, agentsMdFilename]
    (canonicalizePath (symlinkPath.dropLast ++ target) == canonicalizePath expected) &&
      fs.isFile expected

/-- `mcp_reader.rs`: `read_mcp_config` — absent source means no MCP
output; otherwise the source document is validated and re-serialized by
`mcpTransform` (strict JSON validation abstracted as a parameter). -/
def read_mcp_config (mcpTransform : String → Except String String) (fs : FS)
    (currentDir : FsPath) : Except String (Option String) :=
  match fs.readFile (currentDir ++ [aiRuleSourceDir, "mcp.json"]) with
  | none => .ok none
  | some c => (mcpTransform c).map some

/-- `mcp_generator.rs`: `ExternalMcpGenerator::generate_mcp` — one output
file when the source reads back a config; read errors are swallowed
(`if let Ok(Some(..))`). -/
def AgentTool.generate_mcp (a : AgentTool) (mcpTransform : String → Except String String)
    (fs : FS) (currentDir : FsPath) : List (FsPath × String) :=
  match a.mcpOutputPath with
  | none => []
  | some out =>
    match read_mcp_config mcpTransform fs currentDir with
    | .ok (some content) => [(currentDir ++ out, content)]
    | _ => []

/-- `mcp_generator.rs`: `ExternalMcpGenerator::check_mcp` (read errors
propagate). -/
def AgentTool.check_mcp (a : AgentTool) (mcpTransform : String → Except String String)
    (fs : FS) (currentDir : FsPath) : Except String Bool :=
  match a.mcpOutputPath with
  | none => .ok true
  | some out => do
    let cfg ← read_mcp_config mcpTransform fs currentDir
    match cfg with
    | some expected =>
      if !fs.pathExists (currentDir ++ out) then .ok false
      else
        match fs.readFile (currentDir ++ out) with
        | some actual => .ok (actual == expected)
        | none => .ok false
    | none => .ok (!fs.pathExists (currentDir ++ out))

/-! ## Command symlinks (src/operations/command_reader.rs,
src/agents/external_commands_generator.rs)

The snapshot's `generate.rs` invokes `generate_commands`, a method no
generator in the snapshot defines; the one command implementation is the
symlink creation in `command_reader.rs` (behind
`ExternalCommandsGenerator::generate_command_symlinks`), which the model
takes as the command phase's semantics.  The callers again pass a
`follow_symlinks` flag to `check_commands` that the implementation does
not accept. -/

/-- Model of Rust `str::ends_with`. -/
def strEndsWith (s suf : String) : Bool := suf.data.isSuffixOf s.data

/-- `command_reader.rs`: `find_command_files` — the `.md` files of
`ai-rules/commands` as `(stem, file name)` pairs, in sorted order (the
directory listing is modelled sorted, as elsewhere). -/
def find_command_files (fs : FS) (currentDir : FsPath) : List (String × String) :=
  (filesByExtensionIn fs (currentDir ++ [aiRuleSourceDir, "commands"]) "md").filterMap
    fun nc =>
      match fileStem nc.1 with
      | some stem => some (stem, nc.1)
      | none => none

/-- `command_reader.rs`: `create_command_symlinks_in_subdir` — one
symlink per command, named `<stem>.md` inside `target/subdir`, storing
the relative path back to `ai-rules/commands/<file>`. -/
def create_command_symlinks_in_subdir (fs : FS) (currentDir target : FsPath)
    (sub : String) : FS :=
  (find_command_files fs currentDir).foldl
    (fun fs c =>
      let fromPath := target ++ [sub, c.1 ++ ".md"]
      fs.addSymlink (currentDir ++ fromPath)
        (calculate_relative_path fromPath [aiRuleSourceDir, "commands", c.2])) fs

/-- `command_reader.rs`: `create_command_symlinks` (flat) — one symlink
per command, named `<stem>-<suffix>.md` directly in `target`. -/
def create_command_symlinks_flat (fs : FS) (currentDir target : FsPath) : FS :=
  (find_command_files fs currentDir).foldl
    (fun fs c =>
      let fromPath := target ++ [c.1 ++ "-" ++ generatedCommandSuffix ++ ".md"]
      fs.addSymlink (currentDir ++ fromPath)
        (calculate_relative_path fromPath [aiRuleSourceDir, "commands", c.2])) fs

/-- `command_reader.rs`: `remove_command_symlinks_in_subdir` —
`fs::remove_dir_all` of `target/subdir`. -/
def remove_command_symlinks_in_subdir (fs : FS) (currentDir target : FsPath)
    (sub : String) : FS :=
  fs.removeSubtree (currentDir ++ target ++ [sub])

/-- Is `p` a suffix-named generated command entry directly in `dir`? -/
def flatCommandEntry (dir p : FsPath) : Bool :=
  isDirectChild dir p &&
  (match p.getLast? with
   | some n => strEndsWith n ("-" ++ generatedCommandSuffix ++ ".md")
   | none => false)

/-- `command_reader.rs`: `remove_generated_command_symlinks` (flat) —
remove the symlinks directly in `target` whose name carries the
generated-command suffix (only symlinks: the source checks
`path.is_symlink()`). -/
def remove_generated_command_symlinks (fs : FS) (currentDir target : FsPath) : FS :=
  { files := fs.files,
    symlinks := fs.symlinks.filter fun e => !flatCommandEntry (currentDir ++ target) e.1 }

/-- Does the symlink at `p` resolve (relative to its parent directory,
then canonicalized) to the command source `ai-rules/commands/<file>`? -/
def commandSymlinkOk (fs : FS) (currentDir p : FsPath) (file : String) : Bool :=
  match lookupKey fs.symlinks p with
  | none => false
  | some t =>
    canonicalizePath (p.dropLast ++ t) ==
      canonicalizePath (currentDir ++ [aiRuleSourceDir, "commands", file])

/-- `command_reader.rs`: `check_command_symlinks_in_subdir_in_sync` —
with no commands the subdirectory must not exist; otherwise it must
exist, every command's symlink must resolve to its source, and the
number of file-or-symlink entries directly in the subdirectory must
equal the number of commands. -/
def check_command_symlinks_in_subdir (fs : FS) (currentDir target : FsPath)
    (sub : String) : Bool :=
  let cmds := find_command_files fs currentDir
  let subdirPath := currentDir ++ target ++ [sub]
  if cmds.isEmpty then !fs.dirExists subdirPath
  else if !fs.dirExists subdirPath then false
  else
    (cmds.all fun c => commandSymlinkOk fs currentDir (subdirPath ++ [c.1 ++ ".md"]) c.2) &&
    decide ((fs.files.filter fun e => isDirectChild subdirPath e.1).length +
      (fs.symlinks.filter fun e => isDirectChild subdirPath e.1).length = cmds.length)

/-- `command_reader.rs`: `check_command_symlinks_in_sync` (flat) — with
no commands, either the target directory does not exist or it holds no
suffix-named symlink; otherwise every command's symlink must resolve to
its source. -/
def check_command_symlinks_flat (fs : FS) (currentDir target : FsPath) : Bool :=
  let cmds := find_command_files fs currentDir
  let targetPath := currentDir ++ target
  if cmds.isEmpty then
    !fs.dirExists targetPath || !(fs.symlinks.any fun e => flatCommandEntry targetPath e.1)
  else
    cmds.all fun c =>
      commandSymlinkOk fs currentDir
        (targetPath ++ [c.1 ++ "-" ++ generatedCommandSuffix ++ ".md"]) c.2

/-- `external_commands_generator.rs` dispatch (generation): the subfolder
variant when a subdirectory is configured, the flat variant otherwise;
no command generator, no output. -/
def AgentTool.generate_commands (a : AgentTool) (fs : FS) (currentDir : FsPath) : FS :=
  match a.commandTarget with
  | none => fs
  | some (target, some sub) => create_command_symlinks_in_subdir fs currentDir target sub
  | some (target, none) => create_command_symlinks_flat fs currentDir target

/-- `external_commands_generator.rs` dispatch: `clean_commands`. -/
def AgentTool.clean_commands (a : AgentTool) (fs : FS) (currentDir : FsPath) : FS :=
  match a.commandTarget with
  | none => fs
  | some (target, some sub) => remove_command_symlinks_in_subdir fs currentDir target sub
  | some (target, none) => remove_generated_command_symlinks fs currentDir target

/-- `status.rs` `check_command_files` through
`external_commands_generator.rs`: agents without a command generator are
vacuously in sync. -/
def AgentTool.check_commands (a : AgentTool) (fs : FS) (currentDir : FsPath) :
    Except String Bool :=
  match a.commandTarget with
  | none => .ok true
  | some (target, some sub) => .ok (check_command_symlinks_in_subdir fs currentDir target sub)
  | some (target, none) => .ok (check_command_symlinks_flat fs currentDir target)

/-! ## Skill symlinks (src/operations/skills_reader.rs,
src/agents/external_skills_generator.rs) -/

/-- Insertion into a sorted name listing. -/
def insertSortedStr (x : String) : List String → List String
  | [] => [x]
  | y :: ys => if x.data ≤ y.data then x :: y :: ys else y :: insertSortedStr x ys

/-- `skills_reader.rs`: `find_skill_folders` — the names of the item
directories of `ai-rules/skills` that contain a `SKILL.md`, in sorted
order (the directory listing is modelled sorted, as elsewhere; item
entries that are not directories, or directories without a `SKILL.md`,
are skipped). -/
def find_skill_folders (fs : FS) (currentDir : FsPath) : List String :=
  let skillsDir := currentDir ++ [aiRuleSourceDir, "skills"]
  (fs.files.filterMap fun e =>
    if skillsDir.isPrefixOf e.1 then
      match e.1.drop skillsDir.length with
      | [n, f] => if f == skillFilename then some n else none
      | _ => none
    else none).foldr insertSortedStr []

/-- `skills_reader.rs`: `create_skill_symlinks` — one symlink per skill
folder, named `<prefix><name>` in the target directory, storing the
relative path back to `ai-rules/skills/<name>`. -/
def create_skill_symlinks (fs : FS) (currentDir target : FsPath) : FS :=
  (find_skill_folders fs currentDir).foldl
    (fun fs n =>
      let fromPath := target ++ [generatedFilePrefixStr ++ n]
      fs.addSymlink (currentDir ++ fromPath)
        (calculate_relative_path fromPath [aiRuleSourceDir, "skills", n])) fs

/-- Is `p` a prefix-named generated entry directly in `dir`? -/
def prefixedEntry (dir p : FsPath) : Bool :=
  isDirectChild dir p &&
  (match p.getLast? with
   | some n => strStartsWith n generatedFilePrefixStr
   | none => false)

/-- `skills_reader.rs`: `remove_generated_skill_symlinks` — remove the
prefix-named files and symlinks directly in the target directory
(`fs::remove_file`; item directories are not entries of this model's
flat file map, matching the source's intent of leaving directories in
place). -/
def remove_generated_skill_symlinks (fs : FS) (currentDir target : FsPath) : FS :=
  { files := fs.files.filter fun e => !prefixedEntry (currentDir ++ target) e.1,
    symlinks := fs.symlinks.filter fun e => !prefixedEntry (currentDir ++ target) e.1 }

/-- Does the symlink for skill `n` resolve (relative to its parent
directory, then canonicalized) to `ai-rules/skills/<n>`? -/
def skillSymlinkOk (fs : FS) (currentDir target : FsPath) (n : String) : Bool :=
  let p := currentDir ++ target ++ [generatedFilePrefixStr ++ n]
  match lookupKey fs.symlinks p with
  | none => false
  | some t =>
    canonicalizePath (p.dropLast ++ t) ==
      canonicalizePath (currentDir ++ [aiRuleSourceDir, "skills", n])

/-- `skills_reader.rs`: `check_skill_symlinks_in_sync` — with no source
skills, either the target directory does not exist or it holds no
prefix-named symlink; otherwise every skill's symlink must resolve to
its folder and no orphaned prefix-named symlink (one whose stripped name
matches no source skill) may sit in the target directory. -/
def check_skill_symlinks_in_sync (fs : FS) (currentDir target : FsPath) : Bool :=
  let skills := find_skill_folders fs currentDir
  let targetPath := currentDir ++ target
  if skills.isEmpty then
    !fs.dirExists targetPath || !(fs.symlinks.any fun e => prefixedEntry targetPath e.1)
  else
    (skills.all fun n => skillSymlinkOk fs currentDir target n) &&
    (!fs.dirExists targetPath ||
      fs.symlinks.all fun e =>
        !prefixedEntry targetPath e.1 ||
        (match e.1.getLast? with
         | some nm => skills.any fun s => (generatedFilePrefixStr ++ s) == nm
         | none => true))

/-- `external_skills_generator.rs` dispatch (generation). -/
def AgentTool.generate_skills (a : AgentTool) (fs : FS) (currentDir : FsPath) : FS :=
  match a.skillsTarget with
  | none => fs
  | some target => create_skill_symlinks fs currentDir target

/-- `external_skills_generator.rs` dispatch: `clean_skills`. -/
def AgentTool.clean_skills (a : AgentTool) (fs : FS) (currentDir : FsPath) : FS :=
  match a.skillsTarget with
  | none => fs
  | some target => remove_generated_skill_symlinks fs currentDir target

/-- `status.rs` `check_skill_files` through
`external_skills_generator.rs`: agents without a skills generator are
vacuously in sync. -/
def AgentTool.check_skills (a : AgentTool) (fs : FS) (currentDir : FsPath) :
    Except String Bool :=
  match a.skillsTarget with
  | none => .ok true
  | some target => .ok (check_skill_symlinks_in_sync fs currentDir target)

/-! ## Cleaning (src/operations/cleaner.rs, legacy_cleaner.rs,
claude_skills.rs) -/

/-- Does `p` lie inside a generated-prefix-named item directory of the
skills directory?  (`p = skillsDir ++ [n, …]` with at least one further
component, so `n` names a directory, and `n` carries the prefix.) -/
def underGeneratedSkillDir (skillsDir p : FsPath) : Bool :=
  skillsDir.isPrefixOf p &&
  (match p.drop skillsDir.length with
   | n :: _ :: _ => strStartsWith n generatedFilePrefixStr
   | _ => false)

/-- `claude_skills.rs`: `remove_generated_skills` — remove exactly the
item directories of `.claude/skills` whose directory name starts with the
reserved generated-file prefix; files directly in the skills directory
and item directories without the prefix are untouched. -/
def remove_generated_skills (fs : FS) (projectRoot : FsPath) : FS :=
  let skillsDir := projectRoot ++ [".claude", "skills"]
  { files := fs.files.filter fun e => !underGeneratedSkillDir skillsDir e.1,
    symlinks := fs.symlinks.filter fun e => !underGeneratedSkillDir skillsDir e.1 }

/-- `rule_generator.rs` dispatch: per-agent `clean`.  Single-file agents
remove their output file (or symlink); markdown agents remove their whole
rules directory (`clean_markdown_agent_files`); claude removes its
output file and then the generated skill item directories
(`claude_skills::remove_generated_skills`). -/
def AgentTool.clean (a : AgentTool) (fs : FS) (currentDir : FsPath) : FS :=
  match a.shape with
  | .singleFile out => fs.removeEntry (currentDir ++ [out])
  | .markdownDir d sub => fs.removeSubtree (get_rules_dir_path currentDir d sub)
  | .claudeMd out => remove_generated_skills (fs.removeEntry (currentDir ++ [out])) currentDir

/-- `mcp_generator.rs`: `clean_mcp` — remove the agent's MCP output file. -/
def AgentTool.clean_mcp (a : AgentTool) (fs : FS) (currentDir : FsPath) : FS :=
  match a.mcpOutputPath with
  | some out => fs.removeEntry (currentDir ++ out)
  | none => fs

/-- `legacy_cleaner.rs`: `LEGACY_AGENT_DIRS`. -/
def legacyAgentDirs : List (String × Option String) :=
  [(".roo", some "rules"), (".clinerules", none), (".kilocode", some "rules")]

/-- `legacy_cleaner.rs`: `remove_generated_files_from_directory` — drop
the regular files directly in `dir` whose name carries the reserved
generated-file prefix (directory-if-empty removal has no observable
effect in this model of implicit directories). -/
def remove_generated_files_from_directory (fs : FS) (dir : FsPath) : FS :=
  { fs with
    files := fs.files.filter fun e =>
      !(isDirectChild dir e.1 &&
        match e.1.getLast? with
        | some n => strStartsWith n generatedFilePrefixStr
        | none => false) }

/-- `legacy_cleaner.rs`: `clean_legacy_agent_directories`. -/
def clean_legacy_agent_directories (fs : FS) (currentDir : FsPath) : FS :=
  legacyAgentDirs.foldl
    (fun fs p => remove_generated_files_from_directory fs
      (get_rules_dir_path currentDir p.1 p.2)) fs

/-- `cleaner.rs`: `clean_generated_files` — remove the generated body
directory, the legacy generated directory and legacy file names, the
legacy agent directories' prefixed files, then invoke each configured
agent's `clean`, `clean_mcp`, `clean_commands` and `clean_skills`. -/
def clean_generated_files (fs : FS) (currentDir : FsPath) (agents : List AgentTool) : FS :=
  let fs := fs.removeSubtree (generated_body_file_dir currentDir)
  let fs := fs.removeSubtree (currentDir ++ [generatedRuleBodyDir])
  let fs := fs.removeEntry (currentDir ++ [".goosehints"])
  let fs := clean_legacy_agent_directories fs currentDir
  let fs := agents.foldl (fun fs a => a.clean fs currentDir) fs
  let fs := agents.foldl (fun fs a => a.clean_mcp fs currentDir) fs
  let fs := agents.foldl (fun fs a => a.clean_commands fs currentDir) fs
  agents.foldl (fun fs a => a.clean_skills fs currentDir) fs

/-! ## Generation (src/commands/generate.rs) -/

/-- `generate.rs`: `collect_all_files_for_directory` — the generated body
map extended, per configured agent, with that agent's contents
(`HashMap::extend`). -/
def collectDirMap (sources : List SourceFile) (currentDir : FsPath)
    (agents : List AgentTool) : List (FsPath × String) :=
  if sources.isEmpty then []
  else
    agents.foldl
      (fun m a => (a.generate_agent_contents sources currentDir).foldl
        (fun m e => upsert m e.1 e.2) m)
      (generate_body_contents sources currentDir)

/-- The symlink-mode branch of `generate_files`: each configured agent
creates its relative symlink back to `ai-rules/AGENTS.md`. -/
def generate_symlinks_for_agents (fs : FS) (currentDir : FsPath)
    (agents : List AgentTool) : FS :=
  agents.foldl
    (fun fs a => (create_symlink_to_agents_md fs currentDir a.symlinkOutputPath).1) fs

/-- The MCP map written by `generate_files` (`HashMap::extend` over the
configured agents). -/
def collectMcpMap (mcpTransform : String → Except String String) (fs : FS)
    (currentDir : FsPath) (agents : List AgentTool) : List (FsPath × String) :=
  agents.foldl
    (fun m a => (a.generate_mcp mcpTransform fs currentDir).foldl
      (fun m e => upsert m e.1 e.2) m) []

/-- The command phase of `generate_files` (the loop runs over
`command_agents`, which defaults to the configured agents). -/
def generate_commands_for_agents (fs : FS) (currentDir : FsPath)
    (agents : List AgentTool) : FS :=
  agents.foldl (fun fs a => a.generate_commands fs currentDir) fs

/-- The skills phase of `generate_files`. -/
def generate_skills_for_agents (fs : FS) (currentDir : FsPath)
    (agents : List AgentTool) : FS :=
  agents.foldl (fun fs a => a.generate_skills fs currentDir) fs

/-- `generate.rs`: `generate_files` for one directory — clean, then either
create symlinks (symlink mode) or parse the rules and write the collected
body and agent files, then write the MCP files, then run the command and
skills phases. -/
def generate_files_model (yamlParse : String → Except String FrontMatter)
    (mcpTransform : String → Except String String) (agents : List AgentTool)
    (fs : FS) (currentDir : FsPath) : Except String FS := do
  let fs := clean_generated_files fs currentDir agents
  let fs ←
    if detect_symlink_mode fs currentDir then
      pure (generate_symlinks_for_agents fs currentDir agents)
    else do
      let sources ← find_source_files yamlParse fs currentDir
      pure (fs.writeFiles (collectDirMap sources currentDir agents))
  let fs := fs.writeFiles (collectMcpMap mcpTransform fs currentDir agents)
  let fs := generate_commands_for_agents fs currentDir agents
  pure (generate_skills_for_agents fs currentDir agents)

/-- `status.rs`: `ProjectStatus` (the `has_ai_rules` flag is not involved
in any claim and is omitted). -/
structure ProjectStatus where
  body_files_out_of_sync : Bool
  agent_statuses : String → Bool

/-- `status.rs`: `check_body_files` — with no rules the generated
directory must not exist; otherwise it must exactly match the freshly
materialized expected body files. -/
def check_body_files (fs : FS) (currentDir : FsPath) (sources : List SourceFile) : Bool :=
  if sources.isEmpty then !fs.dirExists (generated_body_file_dir currentDir)
  else
    check_directory_exact_match fs (generated_body_file_dir currentDir)
      (generate_body_contents sources currentDir)

/-- `status.rs`: `check_agent_files` — in symlink mode delegate to the
agent's `check_symlink`, otherwise to its `check_agent_contents`. -/
def check_agent_files (fs : FS) (currentDir : FsPath) (a : AgentTool)
    (sources : List SourceFile) (isSymlinkMode : Bool) : Bool :=
  if isSymlinkMode then check_agents_md_symlink fs currentDir (currentDir ++ a.symlinkOutputPath)
  else a.check_agent_contents fs sources currentDir

/-- The per-agent status update loop of `check_project_status`: an agent
already marked out-of-sync is skipped, otherwise its check may flip it to
out-of-sync. -/
def updateStatuses (check : AgentTool → Except String Bool) :
    List AgentTool → (String → Bool) → Except String (String → Bool)
  | [], st => .ok st
  | a :: rest, st =>
    if st a.name then do
      let ok ← check a
      updateStatuses check rest (if ok then st else fun n => if n = a.name then false else st n)
    else updateStatuses check rest st

/-- The directory loop of `check_project_status`: body-file mismatch in
any directory aborts the traversal (`BodyFilesOutOfSync`) and forces every
agent status to out-of-sync; other errors propagate. -/
def statusGo (yamlParse : String → Except String FrontMatter)
    (mcpTransform : String → Except String String) (agents : List AgentTool) :
    List FS → (String → Bool) → Except String ProjectStatus
  | [], st => .ok ⟨false, st⟩
  | fs :: rest, st => do
    if detect_symlink_mode fs [] then do
      let st ← updateStatuses (fun a => .ok (check_agent_files fs [] a [] true)) agents st
      let st ← updateStatuses (fun a => a.check_mcp mcpTransform fs []) agents st
      let st ← updateStatuses (fun a => a.check_commands fs []) agents st
      let st ← updateStatuses (fun a => a.check_skills fs []) agents st
      statusGo yamlParse mcpTransform agents rest st
    else do
      let sources ← find_source_files yamlParse fs []
      if !check_body_files fs [] sources then
        .ok ⟨true, fun _ => false⟩
      else do
        let st ← updateStatuses
          (fun a => .ok (check_agent_files fs [] a sources false)) agents st
        let st ← updateStatuses (fun a => a.check_mcp mcpTransform fs []) agents st
        let st ← updateStatuses (fun a => a.check_commands fs []) agents st
        let st ← updateStatuses (fun a => a.check_skills fs []) agents st
        statusGo yamlParse mcpTransform agents rest st

/-- `status.rs`: `check_project_status` over the visited directories,
every tracked agent starting in-sync. -/
def check_project_status (yamlParse : String → Except String FrontMatter)
    (mcpTransform : String → Except String String) (agents : List AgentTool)
    (dirs : List FS) : Except String ProjectStatus :=
  statusGo yamlParse mcpTransform agents dirs fun _ => true

/-! ## Generic lemmas about the map and filesystem primitives -/

theorem lookupKey_filter_keyPred {α β : Type} [DecidableEq α] (l : List (α × β))
    (q : α → Bool) (k : α) :
    lookupKey (l.filter fun e => q e.1) k = if q k then lookupKey l k else none := by
  induction l with
  | nil => simp [lookupKey]
  | cons e rest ih =>
    obtain ⟨ek, ev⟩ := e
    by_cases hq : q ek
    · rw [List.filter_cons_of_pos (by simpa using hq)]
      by_cases hek : ek = k
      · subst hek; simp [lookupKey, hq]
      · simp [lookupKey, hek, ih]
    · rw [List.filter_cons_of_neg (by simpa using hq)]
      by_cases hek : ek = k
      · subst hek
        simp only [ih]
        have : q ek = false := by simpa using hq
        simp [lookupKey, this]
      · simp [lookupKey, hek, ih]

theorem filter_keyPred_filter_ne {α β : Type} [DecidableEq α] (l : List (α × β))
    (q : α → Bool) (k : α) (hk : q k = false) :
    ((l.filter fun e => ¬ e.1 = k).filter fun e => q e.1) = l.filter fun e => q e.1 := by
  induction l with
  | nil => rfl
  | cons e rest ih =>
    obtain ⟨ek, ev⟩ := e
    by_cases hek : ek = k
    · subst hek
      rw [List.filter_cons_of_neg (by simp)]
      rw [show List.filter (fun e => q e.1) ((ek, ev) :: rest) = List.filter (fun e => q e.1) rest
        from List.filter_cons_of_neg (by simpa using hk)]
      exact ih
    · rw [List.filter_cons_of_pos (by simpa using hek)]
      by_cases hq : q ek
      · rw [List.filter_cons_of_pos (by simpa using hq),
          List.filter_cons_of_pos (by simpa using hq), ih]
      · rw [List.filter_cons_of_neg (by simpa using hq),
          List.filter_cons_of_neg (by simpa using hq), ih]

theorem keysOf_append {α β : Type} (l₁ l₂ : List (α × β)) :
    keysOf (l₁ ++ l₂) = keysOf l₁ ++ keysOf l₂ := by
  simp [keysOf]

theorem keysOf_filter_subset {α β : Type} (l : List (α × β)) (p : α × β → Bool) (k : α)
    (h : k ∈ keysOf (l.filter p)) : k ∈ keysOf l := by
  obtain ⟨e, he, rfl⟩ := List.mem_map.1 h
  exact List.mem_map_of_mem _ (List.mem_of_mem_filter he)

theorem nodupKeys_append {α β : Type} (l₁ l₂ : List (α × β))
    (h₁ : NodupKeys l₁) (h₂ : NodupKeys l₂)
    (hdisj : ∀ k ∈ keysOf l₁, k ∉ keysOf l₂) : NodupKeys (l₁ ++ l₂) := by
  unfold NodupKeys
  rw [keysOf_append, List.nodup_append]
  exact ⟨h₁, h₂, fun k hk => hdisj k hk⟩

theorem writeFiles_symlinks_eq (m : List (FsPath × String)) (fs : FS) :
    (fs.writeFiles m).symlinks = fs.symlinks := rfl

/-! ## Normal form of the cleaners

`clean_generated_files` is a sequence of removals, each of which filters
the two entry lists; the composition is one filter over the "managed"
region of the configured agents. -/

/-- The file region owned (cleaned and rewritten) by one agent's rule
generator. -/
def AgentTool.cleanFileRegion (a : AgentTool) (currentDir : FsPath) (p : FsPath) : Bool :=
  match a.shape with
  | .singleFile out => p = currentDir ++ [out]
  | .markdownDir d sub => pathUnder (get_rules_dir_path currentDir d sub) p
  | .claudeMd out =>
    p = currentDir ++ [out] || underGeneratedSkillDir (currentDir ++ [".claude", "skills"]) p

/-- The file owned by one agent's MCP generator. -/
def AgentTool.mcpRegion (a : AgentTool) (currentDir : FsPath) (p : FsPath) : Bool :=
  match a.mcpOutputPath with
  | some out => p = currentDir ++ out
  | none => false

/-- The regular-file paths one agent's command cleaner may remove. -/
def AgentTool.commandFileRegion (a : AgentTool) (currentDir : FsPath) (p : FsPath) : Bool :=
  match a.commandTarget with
  | some (target, some sub) => pathUnder (currentDir ++ target ++ [sub]) p
  | _ => false

/-- The symlink paths one agent's command cleaner may remove (the flat
cleaner touches only symlinks). -/
def AgentTool.commandSymlinkRegion (a : AgentTool) (currentDir : FsPath) (p : FsPath) : Bool :=
  match a.commandTarget with
  | none => false
  | some (target, some sub) => pathUnder (currentDir ++ target ++ [sub]) p
  | some (target, none) => flatCommandEntry (currentDir ++ target) p

/-- The paths one agent's skills cleaner may remove. -/
def AgentTool.skillsRegion (a : AgentTool) (currentDir : FsPath) (p : FsPath) : Bool :=
  match a.skillsTarget with
  | none => false
  | some target => prefixedEntry (currentDir ++ target) p

/-- A prefixed file directly in one of the legacy agent directories. -/
def isLegacyPrefixedFile (currentDir : FsPath) (p : FsPath) : Bool :=
  legacyAgentDirs.any fun ld =>
    isDirectChild (get_rules_dir_path currentDir ld.1 ld.2) p &&
    (match p.getLast? with
     | some n => strStartsWith n generatedFilePrefixStr
     | none => false)

/-- The set of regular-file paths `clean_generated_files` may remove. -/
def managedFilePath (currentDir : FsPath) (agents : List AgentTool) (p : FsPath) : Bool :=
  pathUnder (generated_body_file_dir currentDir) p ||
  pathUnder (currentDir ++ [generatedRuleBodyDir]) p ||
  p = currentDir ++ [".goosehints"] ||
  isLegacyPrefixedFile currentDir p ||
  (agents.any fun a => a.cleanFileRegion currentDir p) ||
  (agents.any fun a => a.mcpRegion currentDir p) ||
  (agents.any fun a => a.commandFileRegion currentDir p) ||
  (agents.any fun a => a.skillsRegion currentDir p)

/-- The set of symlink paths `clean_generated_files` may remove. -/
def managedSymlinkPath (currentDir : FsPath) (agents : List AgentTool) (p : FsPath) : Bool :=
  pathUnder (generated_body_file_dir currentDir) p ||
  pathUnder (currentDir ++ [generatedRuleBodyDir]) p ||
  p = currentDir ++ [".goosehints"] ||
  (agents.any fun a => a.cleanFileRegion currentDir p) ||
  (agents.any fun a => a.mcpRegion currentDir p) ||
  (agents.any fun a => a.commandSymlinkRegion currentDir p) ||
  (agents.any fun a => a.skillsRegion currentDir p)

theorem agent_clean_eq (a : AgentTool) (fs : FS) (c : FsPath) :
    a.clean fs c = ⟨fs.files.filter fun e => !a.cleanFileRegion c e.1,
                    fs.symlinks.filter fun e => !a.cleanFileRegion c e.1⟩ := by
  unfold AgentTool.clean AgentTool.cleanFileRegion
  cases a.shape with
  | singleFile out =>
    unfold FS.removeEntry
    refine congrArg₂ FS.mk ?_ ?_ <;>
      exact List.filter_congr fun x _ => by simp
  | markdownDir d sub =>
    unfold FS.removeSubtree
    rfl
  | claudeMd out =>
    unfold remove_generated_skills FS.removeEntry
    refine congrArg₂ FS.mk ?_ ?_ <;>
    · rw [List.filter_filter]
      exact List.filter_congr fun x _ => by
        cases h1 : decide (x.1 = c ++ [out]) <;>
          cases h2 : underGeneratedSkillDir (c ++ [".claude", "skills"]) x.1 <;>
            simp_all

theorem agent_clean_commands_eq (a : AgentTool) (fs : FS) (c : FsPath) :
    a.clean_commands fs c =
      ⟨fs.files.filter fun e => !a.commandFileRegion c e.1,
       fs.symlinks.filter fun e => !a.commandSymlinkRegion c e.1⟩ := by
  unfold AgentTool.clean_commands AgentTool.commandFileRegion AgentTool.commandSymlinkRegion
  match h : a.commandTarget with
  | none => refine congrArg₂ FS.mk ?_ ?_ <;> simp
  | some (target, some sub) =>
    unfold remove_command_symlinks_in_subdir FS.removeSubtree
    rfl
  | some (target, none) =>
    unfold remove_generated_command_symlinks
    refine congrArg₂ FS.mk ?_ rfl
    simp

theorem agent_clean_skills_eq (a : AgentTool) (fs : FS) (c : FsPath) :
    a.clean_skills fs c =
      ⟨fs.files.filter fun e => !a.skillsRegion c e.1,
       fs.symlinks.filter fun e => !a.skillsRegion c e.1⟩ := by
  unfold AgentTool.clean_skills AgentTool.skillsRegion
  match h : a.skillsTarget with
  | none => refine congrArg₂ FS.mk ?_ ?_ <;> simp
  | some target =>
    unfold remove_generated_skill_symlinks
    rfl

theorem agent_clean_mcp_eq (a : AgentTool) (fs : FS) (c : FsPath) :
    a.clean_mcp fs c = ⟨fs.files.filter fun e => !a.mcpRegion c e.1,
                        fs.symlinks.filter fun e => !a.mcpRegion c e.1⟩ := by
  unfold AgentTool.clean_mcp AgentTool.mcpRegion
  cases a.mcpOutputPath with
  | none =>
    refine congrArg₂ FS.mk ?_ ?_ <;> simp
  | some out =>
    unfold FS.removeEntry
    refine congrArg₂ FS.mk ?_ ?_ <;>
      exact List.filter_congr fun x _ => by simp

theorem foldl_agent_clean_eq (agents : List AgentTool) :
    ∀ (fs : FS) (c : FsPath),
    agents.foldl (fun fs a => a.clean fs c) fs =
      ⟨fs.files.filter fun e => !(agents.any fun a => a.cleanFileRegion c e.1),
       fs.symlinks.filter fun e => !(agents.any fun a => a.cleanFileRegion c e.1)⟩ := by
  induction agents with
  | nil =>
    intro fs c
    show fs = _
    refine (congrArg₂ FS.mk ?_ ?_).symm <;> simp
  | cons a rest ih =>
    intro fs c
    show rest.foldl _ (a.clean fs c) = _
    rw [ih (a.clean fs c) c, agent_clean_eq]
    refine congrArg₂ FS.mk ?_ ?_ <;>
    · rw [List.filter_filter]
      exact List.filter_congr fun x _ => by
        cases h1 : a.cleanFileRegion c x.1 <;>
          cases h2 : rest.any fun b => b.cleanFileRegion c x.1 <;> simp [h1, h2]

theorem foldl_agent_clean_mcp_eq (agents : List AgentTool) :
    ∀ (fs : FS) (c : FsPath),
    agents.foldl (fun fs a => a.clean_mcp fs c) fs =
      ⟨fs.files.filter fun e => !(agents.any fun a => a.mcpRegion c e.1),
       fs.symlinks.filter fun e => !(agents.any fun a => a.mcpRegion c e.1)⟩ := by
  induction agents with
  | nil =>
    intro fs c
    show fs = _
    refine (congrArg₂ FS.mk ?_ ?_).symm <;> simp
  | cons a rest ih =>
    intro fs c
    show rest.foldl _ (a.clean_mcp fs c) = _
    rw [ih (a.clean_mcp fs c) c, agent_clean_mcp_eq]
    refine congrArg₂ FS.mk ?_ ?_ <;>
    · rw [List.filter_filter]
      exact List.filter_congr fun x _ => by
        cases h1 : a.mcpRegion c x.1 <;>
          cases h2 : rest.any fun b => b.mcpRegion c x.1 <;> simp [h1, h2]

theorem foldl_agent_clean_commands_eq (agents : List AgentTool) :
    ∀ (fs : FS) (c : FsPath),
    agents.foldl (fun fs a => a.clean_commands fs c) fs =
      ⟨fs.files.filter fun e => !(agents.any fun a => a.commandFileRegion c e.1),
       fs.symlinks.filter fun e => !(agents.any fun a => a.commandSymlinkRegion c e.1)⟩ := by
  induction agents with
  | nil =>
    intro fs c
    show fs = _
    refine (congrArg₂ FS.mk ?_ ?_).symm <;> simp
  | cons a rest ih =>
    intro fs c
    show rest.foldl _ (a.clean_commands fs c) = _
    rw [ih (a.clean_commands fs c) c, agent_clean_commands_eq]
    refine congrArg₂ FS.mk ?_ ?_
    · rw [List.filter_filter]
      exact List.filter_congr fun x _ => by
        cases h1 : a.commandFileRegion c x.1 <;>
          cases h2 : rest.any fun b => b.commandFileRegion c x.1 <;> simp [h1, h2]
    · rw [List.filter_filter]
      exact List.filter_congr fun x _ => by
        cases h1 : a.commandSymlinkRegion c x.1 <;>
          cases h2 : rest.any fun b => b.commandSymlinkRegion c x.1 <;> simp [h1, h2]

theorem foldl_agent_clean_skills_eq (agents : List AgentTool) :
    ∀ (fs : FS) (c : FsPath),
    agents.foldl (fun fs a => a.clean_skills fs c) fs =
      ⟨fs.files.filter fun e => !(agents.any fun a => a.skillsRegion c e.1),
       fs.symlinks.filter fun e => !(agents.any fun a => a.skillsRegion c e.1)⟩ := by
  induction agents with
  | nil =>
    intro fs c
    show fs = _
    refine (congrArg₂ FS.mk ?_ ?_).symm <;> simp
  | cons a rest ih =>
    intro fs c
    show rest.foldl _ (a.clean_skills fs c) = _
    rw [ih (a.clean_skills fs c) c, agent_clean_skills_eq]
    refine congrArg₂ FS.mk ?_ ?_ <;>
    · rw [List.filter_filter]
      exact List.filter_congr fun x _ => by
        cases h1 : a.skillsRegion c x.1 <;>
          cases h2 : rest.any fun b => b.skillsRegion c x.1 <;> simp [h1, h2]

theorem clean_legacy_eq (fs : FS) (c : FsPath) :
    clean_legacy_agent_directories fs c =
      ⟨fs.files.filter fun e => !isLegacyPrefixedFile c e.1, fs.symlinks⟩ := by
  show (remove_generated_files_from_directory
    (remove_generated_files_from_directory
      (remove_generated_files_from_directory fs (get_rules_dir_path c ".roo" (some "rules")))
      (get_rules_dir_path c ".clinerules" none))
    (get_rules_dir_path c ".kilocode" (some "rules"))) = _
  unfold remove_generated_files_from_directory
  refine congrArg₂ FS.mk ?_ rfl
  rw [List.filter_filter, List.filter_filter]
  exact List.filter_congr fun x _ => by
    simp [isLegacyPrefixedFile, legacyAgentDirs, Bool.not_or, Bool.and_comm, Bool.and_assoc,
      Bool.and_left_comm]

theorem clean_generated_files_eq (fs : FS) (c : FsPath) (agents : List AgentTool) :
    clean_generated_files fs c agents =
      ⟨fs.files.filter fun e => !managedFilePath c agents e.1,
       fs.symlinks.filter fun e => !managedSymlinkPath c agents e.1⟩ := by
  unfold clean_generated_files
  dsimp only
  rw [clean_legacy_eq]
  rw [foldl_agent_clean_eq, foldl_agent_clean_mcp_eq, foldl_agent_clean_commands_eq,
    foldl_agent_clean_skills_eq]
  unfold FS.removeSubtree FS.removeEntry
  refine congrArg₂ FS.mk ?_ ?_
  · simp only [List.filter_filter]
    exact List.filter_congr fun x _ => by
      simp [managedFilePath, Bool.not_or, Bool.and_comm, Bool.and_assoc, Bool.and_left_comm]
  · simp only [List.filter_filter]
    exact List.filter_congr fun x _ => by
      simp [managedSymlinkPath, Bool.not_or, Bool.and_comm, Bool.and_assoc, Bool.and_left_comm]

/-- Counterexample to C8 as stated: `clean_generated_files` removes the
generated body directory wholesale (`fs::remove_dir_all`), so a user file
named without the reserved prefix that sits inside that directory —
colocated with generated body files — is deleted. -/
theorem clean_prefix_safety_counterexample :
    strStartsWith "notes.md" generatedFilePrefixStr = false ∧
    (FS.mk
        [(["ai-rules", ".generated-ai-rules", "ai-rules-generated-a.md"], "a\n"),
         (["ai-rules", ".generated-ai-rules", "notes.md"], "user notes")] []).isFile
      ["ai-rules", ".generated-ai-rules", "notes.md"] = true ∧
    (clean_generated_files
        (FS.mk
          [(["ai-rules", ".generated-ai-rules", "ai-rules-generated-a.md"], "a\n"),
           (["ai-rules", ".generated-ai-rules", "notes.md"], "user notes")] [])
        [] []).isFile
      ["ai-rules", ".generated-ai-rules", "notes.md"] = false := by
  refine ⟨by decide, by decide, ?_⟩
  rw [clean_generated_files_eq]
  decide

/-- C8 (amended): the cleaner only ever touches the tool-managed region —
the generated body directory, the legacy locations, the configured
agents' own outputs — and for the directory-per-item skills cleaner it
removes exactly the item directories whose name carries the reserved
generated-file prefix: any file outside the managed region, and any
skills-directory entry whose item name lacks the prefix, survives
untouched. -/
theorem clean_frame (fs : FS) (c : FsPath) (agents : List AgentTool) :
    (∀ p, managedFilePath c agents p = false →
      (clean_generated_files fs c agents).readFile p = fs.readFile p) ∧
    (∀ p, (remove_generated_skills fs c).readFile p
        = if underGeneratedSkillDir (c ++ [".claude", "skills"]) p then none
          else fs.readFile p) ∧
    (∀ name rest, strStartsWith name generatedFilePrefixStr = false →
      (remove_generated_skills fs c).readFile (c ++ [".claude", "skills", name] ++ rest)
        = fs.readFile (c ++ [".claude", "skills", name] ++ rest)) := by
  refine ⟨?_, ?_, ?_⟩
  · intro p hp
    rw [clean_generated_files_eq]
    show lookupKey (fs.files.filter fun e => !managedFilePath c agents e.1) p = _
    rw [lookupKey_filter_keyPred fs.files (fun k => !managedFilePath c agents k) p]
    rw [if_pos (by simp [hp])]
    rfl
  · intro p
    show lookupKey (fs.files.filter fun e => !underGeneratedSkillDir (c ++ [".claude", "skills"]) e.1) p = _
    rw [lookupKey_filter_keyPred fs.files
      (fun k => !underGeneratedSkillDir (c ++ [".claude", "skills"]) k) p]
    cases h : underGeneratedSkillDir (c ++ [".claude", "skills"]) p <;> simp [h, FS.readFile]
  · intro name rest hname
    show lookupKey (fs.files.filter fun e => !underGeneratedSkillDir (c ++ [".claude", "skills"]) e.1)
      (c ++ [".claude", "skills", name] ++ rest) = _
    rw [lookupKey_filter_keyPred fs.files
      (fun k => !underGeneratedSkillDir (c ++ [".claude", "skills"]) k)
      (c ++ [".claude", "skills", name] ++ rest)]
    have hunder : underGeneratedSkillDir (c ++ [".claude", "skills"])
        (c ++ [".claude", "skills", name] ++ rest) = false := by
      unfold underGeneratedSkillDir
      have hsplit : c ++ [".claude", "skills", name] ++ rest
          = (c ++ [".claude", "skills"]) ++ ([name] ++ rest) := by simp
      rw [hsplit, List.drop_left]
      cases rest with
      | nil => simp
      | cons r rs => simp [hname]
    rw [if_pos (by simpa using hunder)]
    rfl

/-- Witness for C8 (amended): a root-level user file survives a full
clean, and a non-prefixed skill directory survives the skills cleaner
even though a generated skill directory sits next to it. -/
theorem clean_frame_witness :
    (clean_generated_files
        (FS.mk
          [(["README.md"], "user"),
           ([".claude", "skills", "my-skill", "SKILL.md"], "mine"),
           ([".claude", "skills", "ai-rules-generated-x", "SKILL.md"], "generated")] [])
        [] []).readFile ["README.md"] = some "user" ∧
    (remove_generated_skills
        (FS.mk
          [(["README.md"], "user"),
           ([".claude", "skills", "my-skill", "SKILL.md"], "mine"),
           ([".claude", "skills", "ai-rules-generated-x", "SKILL.md"], "generated")] [])
        []).readFile [".claude", "skills", "my-skill", "SKILL.md"] = some "mine" := by
  have h := clean_frame
    (FS.mk
      [(["README.md"], "user"),
       ([".claude", "skills", "my-skill", "SKILL.md"], "mine"),
       ([".claude", "skills", "ai-rules-generated-x", "SKILL.md"], "generated")] [])
    [] []
  exact ⟨(h.1 ["README.md"] (by decide)).trans (by decide),
    (h.2.2 "my-skill" ["SKILL.md"] (by decide)).trans (by decide)⟩

/-- C7: for base and overlay JSON objects (with the well-formed, duplicate
free keys JSON objects have), the deep merge is key-by-key: a key present
in both with object values on both sides is merged recursively; a key
whose overlay or base value is not an object (in particular any array) is
replaced outright by the overlay value; keys present only in the base are
preserved unchanged; keys only in the overlay are added. -/
theorem deep_merge_spec (bE oE : List (String × Json)) (k : String)
    (hb : NodupKeys bE) (ho : NodupKeys oE) :
    merge_json_objects (Json.obj bE) (Json.obj oE) = Json.obj (mergeInto bE oE) ∧
    lookupKey (mergeInto bE oE) k =
      match lookupKey bE k, lookupKey oE k with
      | some bv, some ov =>
        some (if bv.isObj = true ∧ ov.isObj = true then merge_json_objects bv ov else ov)
      | some bv, none => some bv
      | none, some ov => some ov
      | none, none => none :=
  ⟨by simp [merge_json_objects], mergeInto_lookup oE bE k hb ho⟩

/-- Witness for C7 at a concrete base and overlay: a base-only key is
preserved, an array-valued key is replaced outright (not element-merged),
an object-valued key is merged recursively, and an overlay-only key is
added. -/
theorem deep_merge_spec_witness :
    lookupKey
        (mergeInto
          [("keep", Json.num 1), ("rep", Json.arr [Json.num 1, Json.num 2]),
           ("rec", Json.obj [("x", Json.num 2), ("y", Json.num 7)])]
          [("rep", Json.arr [Json.num 9]), ("rec", Json.obj [("x", Json.num 3)]),
           ("new", Json.str "n")])
        "keep" = some (Json.num 1) ∧
    lookupKey
        (mergeInto
          [("keep", Json.num 1), ("rep", Json.arr [Json.num 1, Json.num 2]),
           ("rec", Json.obj [("x", Json.num 2), ("y", Json.num 7)])]
          [("rep", Json.arr [Json.num 9]), ("rec", Json.obj [("x", Json.num 3)]),
           ("new", Json.str "n")])
        "rep" = some (Json.arr [Json.num 9]) ∧
    lookupKey
        (mergeInto
          [("keep", Json.num 1), ("rep", Json.arr [Json.num 1, Json.num 2]),
           ("rec", Json.obj [("x", Json.num 2), ("y", Json.num 7)])]
          [("rep", Json.arr [Json.num 9]), ("rec", Json.obj [("x", Json.num 3)]),
           ("new", Json.str "n")])
        "new" = some (Json.str "n") ∧
    lookupKey
        (mergeInto
          [("keep", Json.num 1), ("rep", Json.arr [Json.num 1, Json.num 2]),
           ("rec", Json.obj [("x", Json.num 2), ("y", Json.num 7)])]
          [("rep", Json.arr [Json.num 9]), ("rec", Json.obj [("x", Json.num 3)]),
           ("new", Json.str "n")])
        "rec" = some (merge_json_objects
          (Json.obj [("x", Json.num 2), ("y", Json.num 7)])
          (Json.obj [("x", Json.num 3)])) := by
  have h := fun k => (deep_merge_spec
    [("keep", Json.num 1), ("rep", Json.arr [Json.num 1, Json.num 2]),
     ("rec", Json.obj [("x", Json.num 2), ("y", Json.num 7)])]
    [("rep", Json.arr [Json.num 9]), ("rec", Json.obj [("x", Json.num 3)]),
     ("new", Json.str "n")] k
    (by simp [NodupKeys]) (by simp [NodupKeys])).2
  refine ⟨(h "keep").trans (by simp [lookupKey, Json.isObj]),
    (h "rep").trans (by simp [lookupKey, Json.isObj]),
    (h "new").trans (by simp [lookupKey, Json.isObj]), (h "rec").trans ?_⟩
  simp [lookupKey, Json.isObj]

/-- C10: the deep merge leaves the base value completely unchanged whenever
the base value or the overlay value is not a JSON object. -/
theorem deep_merge_nonobject_frame (base overlay : Json)
    (h : base.isObj = false ∨ overlay.isObj = false) :
    merge_json_objects base overlay = base := by
  cases base <;> cases overlay <;>
    simp_all [merge_json_objects, Json.isObj]

/-- Witness for C10: a non-object overlay never replaces the base, and a
non-object base is never overwritten. -/
theorem deep_merge_nonobject_frame_witness :
    merge_json_objects (Json.obj [("a", Json.num 1)]) (Json.arr [Json.num 9])
        = Json.obj [("a", Json.num 1)] ∧
    merge_json_objects (Json.num 5) (Json.obj [("a", Json.num 9)]) = Json.num 5 := by
  exact ⟨deep_merge_nonobject_frame _ _ (Or.inr rfl),
    deep_merge_nonobject_frame _ _ (Or.inl rfl)⟩

/-- C2: for every rule and agent name, if `allowedAgents` is set then the
rule applies exactly to the case-insensitive members of the list (and the
all-agents variant requires every queried name to be a member) regardless
of `blockedAgents` (the allow-list decides); otherwise if `blockedAgents`
is set the rule applies exactly to names that are not case-insensitive
members (and the all-agents variant requires that no queried name is
blocked); otherwise the rule always applies. -/
theorem applicability_resolution (sf : SourceFile) (agent : String) (agents : List String) :
    (∀ allowed, sf.front_matter.allowedAgents = some allowed →
      (sf.applies_to_agent agent = true ↔ ciMember allowed agent) ∧
      (sf.applies_to_agents agents = true ↔ ∀ a ∈ agents, ciMember allowed a)) ∧
    (sf.front_matter.allowedAgents = none →
      ∀ blocked, sf.front_matter.blockedAgents = some blocked →
      (sf.applies_to_agent agent = true ↔ ¬ ciMember blocked agent) ∧
      (sf.applies_to_agents agents = true ↔ ∀ a ∈ agents, ¬ ciMember blocked a)) ∧
    (sf.front_matter.allowedAgents = none → sf.front_matter.blockedAgents = none →
      sf.applies_to_agent agent = true ∧ sf.applies_to_agents agents = true) := by
  refine ⟨fun allowed hA => ⟨?_, ?_⟩, fun hA blocked hB => ⟨?_, ?_⟩, fun hA hB => ⟨?_, ?_⟩⟩
  · simp [SourceFile.applies_to_agent, hA, ciMember, List.any_eq_true]
  · rcases hE : agents with _ | ⟨a₀, rest⟩
    · simp [SourceFile.applies_to_agents, hE]
    · rw [← hE]
      have hne : agents.isEmpty = false := by rw [hE]; rfl
      simp only [SourceFile.applies_to_agents, hne, Bool.false_eq_true, if_false, hA,
        List.all_eq_true, List.mem_map, ciMember, List.any_eq_true]
      constructor
      · rintro h a ha
        obtain ⟨x, hx, hxe⟩ := h _ ⟨a, ha, rfl⟩
        rw [eqIgnoreAsciiCase_lower_right] at hxe
        exact ⟨x, hx, hxe⟩
      · rintro h n ⟨a, ha, rfl⟩
        obtain ⟨x, hx, hxe⟩ := h a ha
        rw [← eqIgnoreAsciiCase_lower_right] at hxe
        exact ⟨x, hx, hxe⟩
  · simp [SourceFile.applies_to_agent, hA, hB, ciMember, List.any_eq_true]
  · rcases hE : agents with _ | ⟨a₀, rest⟩
    · simp [SourceFile.applies_to_agents, hE]
    · rw [← hE]
      have hne : agents.isEmpty = false := by rw [hE]; rfl
      simp only [SourceFile.applies_to_agents, hne, Bool.false_eq_true, if_false, hA, hB,
        Bool.not_eq_true', List.any_eq_false, List.mem_map, ciMember, List.any_eq_true,
        not_exists, not_and]
      constructor
      · rintro h a ha x hx hxe
        exact absurd (by rw [← eqIgnoreAsciiCase_lower_right] at hxe; exact hxe)
          (h _ ⟨a, ha, rfl⟩ x hx)
      · rintro h n ⟨a, ha, rfl⟩ x hx hxe
        rw [eqIgnoreAsciiCase_lower_right] at hxe
        exact h a ha x hx hxe
  · simp [SourceFile.applies_to_agent, hA, hB]
  · rcases hE : agents with _ | ⟨a₀, rest⟩
    · simp [SourceFile.applies_to_agents, hE]
    · rw [← hE]
      have hne : agents.isEmpty = false := by rw [hE]; rfl
      simp [SourceFile.applies_to_agents, hne, hA, hB]

/-- Witness for C2 at a concrete rule that sets both lists: the allow-list
decides, case-insensitively. -/
theorem applicability_resolution_witness :
    let sf : SourceFile :=
      { front_matter :=
          { description := "d", alwaysApply := true, fileMatchingPatterns := none,
            allowedAgents := some ["Claude", " cursor "],
            blockedAgents := some ["claude"] },
        body := "b", base_file_name := "r" }
    sf.applies_to_agent "CLAUDE" = true ∧ sf.applies_to_agents ["cursor", "goose"] = false := by
  intro sf
  obtain ⟨h1, _, _⟩ := applicability_resolution sf "CLAUDE" ["cursor", "goose"]
  obtain ⟨hs, hall⟩ := h1 ["Claude", " cursor "] rfl
  have hfalse : ¬ sf.applies_to_agents ["cursor", "goose"] = true := fun h =>
    absurd (hall.1 h "goose" (by decide)) (by decide)
  exact ⟨hs.2 (by decide), Bool.not_eq_true _ ▸ hfalse⟩

/-! ## C5: a body-file mismatch forces every agent out of sync -/

theorem exceptBind_ok {ε α β : Type} {x : Except ε α} {f : α → Except ε β} {b : β} :
    x >>= f = .ok b ↔ ∃ a, x = .ok a ∧ f a = .ok b := by
  cases x with
  | error e => simp [Bind.bind, Except.bind]
  | ok a => simp [Bind.bind, Except.bind]

theorem statusGo_body_mismatch_aux (yamlParse : String → Except String FrontMatter)
    (mcpTransform : String → Except String String) (agents : List AgentTool) :
    ∀ (dirs : List FS) (st : String → Bool) (status : ProjectStatus),
      statusGo yamlParse mcpTransform agents dirs st = .ok status →
      (∃ d ∈ dirs, detect_symlink_mode d [] = false ∧
        ∃ sources, find_source_files yamlParse d [] = .ok sources ∧
          check_body_files d [] sources = false) →
      status.body_files_out_of_sync = true ∧ ∀ name, status.agent_statuses name = false := by
  intro dirs
  induction dirs with
  | nil =>
    intro st status _ hbad
    obtain ⟨d, hd, _⟩ := hbad
    cases hd
  | cons fs rest ih =>
    intro st status hstat hbad
    simp only [statusGo] at hstat
    by_cases hdet : detect_symlink_mode fs [] = true
    · rw [if_pos hdet] at hstat
      obtain ⟨st1, _, hstat⟩ := exceptBind_ok.mp hstat
      obtain ⟨st2, _, hstat⟩ := exceptBind_ok.mp hstat
      obtain ⟨st3, _, hstat⟩ := exceptBind_ok.mp hstat
      obtain ⟨st4, _, hstat⟩ := exceptBind_ok.mp hstat
      obtain ⟨d, hd, hdetd, hrest⟩ := hbad
      rcases List.mem_cons.mp hd with hdfs | hdrest
      · rw [hdfs] at hdetd; rw [hdetd] at hdet; exact Bool.noConfusion hdet
      · exact ih st4 status hstat ⟨d, hdrest, hdetd, hrest⟩
    · rw [if_neg hdet] at hstat
      obtain ⟨sources', hsrc, hstat⟩ := exceptBind_ok.mp hstat
      by_cases hbody : check_body_files fs [] sources' = true
      · rw [hbody] at hstat
        simp only [Bool.not_true, Bool.false_eq_true, if_false] at hstat
        obtain ⟨st1, _, hstat⟩ := exceptBind_ok.mp hstat
        obtain ⟨st2, _, hstat⟩ := exceptBind_ok.mp hstat
        obtain ⟨st3, _, hstat⟩ := exceptBind_ok.mp hstat
        obtain ⟨st4, _, hstat⟩ := exceptBind_ok.mp hstat
        obtain ⟨d, hd, hdetd, hrest⟩ := hbad
        rcases List.mem_cons.mp hd with hdfs | hdrest
        · exfalso
          obtain ⟨sources, hfind, hcheck⟩ := hrest
          rw [hdfs] at hfind hcheck
          rw [hsrc] at hfind
          injection hfind with hseq
          rw [hseq] at hbody
          rw [hbody] at hcheck
          cases hcheck
        · exact ih st4 status hstat ⟨d, hdrest, hdetd, hrest⟩
      · rw [Bool.not_eq_true] at hbody
        rw [hbody] at hstat
        simp only [Bool.not_false, if_true] at hstat
        injection hstat with hstatus
        rw [← hstatus]
        exact ⟨rfl, fun _ => rfl⟩

/-- C5: during status checking, if any visited directory is in standard
(non-symlink) mode, its rule documents parse, and the generated body
directory does not exactly match the freshly materialized expected body
files (`check_body_files` reports a mismatch — missing file, extra file,
stale content, or a generated directory left over with no rules), then the
resulting project status flags the body files as out of sync and reports
every agent as out of sync. -/
theorem body_mismatch_forces_all_out_of_sync
    (yamlParse : String → Except String FrontMatter)
    (mcpTransform : String → Except String String) (agents : List AgentTool)
    (dirs : List FS) (status : ProjectStatus)
    (hstat : check_project_status yamlParse mcpTransform agents dirs = .ok status)
    (hbad : ∃ d ∈ dirs, detect_symlink_mode d [] = false ∧
      ∃ sources, find_source_files yamlParse d [] = .ok sources ∧
        check_body_files d [] sources = false) :
    status.body_files_out_of_sync = true ∧ ∀ name, status.agent_statuses name = false :=
  statusGo_body_mismatch_aux yamlParse mcpTransform agents dirs (fun _ => true) status hstat hbad

/-- A directory whose rule directory holds no rule documents but whose
generated body directory still contains a stale file. -/
def c5Dir : FS :=
  { files := [([aiRuleSourceDir, generatedRuleBodyDir, "stale.md"], "old body")],
    symlinks := [] }

/-- Witness for C5: on `c5Dir` the status check reports the body files out
of sync and a sample agent out of sync. -/
theorem body_mismatch_forces_all_out_of_sync_witness :
    (ProjectStatus.mk true (fun _ => false)).body_files_out_of_sync = true ∧
      (ProjectStatus.mk true (fun _ => false)).agent_statuses "goose" = false := by
  have h := body_mismatch_forces_all_out_of_sync (fun _ => .error "no front matter")
    (fun s => .ok s) stdRegistry [c5Dir] (ProjectStatus.mk true (fun _ => false))
    rfl ⟨c5Dir, by simp, rfl, [], rfl, rfl⟩
  exact ⟨h.1, h.2 "goose"⟩

/-! ## C4: symlink-mode detection and the switch back to standard generation -/

theorem agent_generate_commands_none {a : AgentTool} (h : a.commandTarget = none)
    (fs : FS) (c : FsPath) : a.generate_commands fs c = fs := by
  simp only [AgentTool.generate_commands, h]

theorem agent_generate_skills_none {a : AgentTool} (h : a.skillsTarget = none)
    (fs : FS) (c : FsPath) : a.generate_skills fs c = fs := by
  simp only [AgentTool.generate_skills, h]

theorem generate_commands_for_agents_noop {agents : List AgentTool}
    (h : ∀ a ∈ agents, a.commandTarget = none) :
    ∀ (fs : FS) (c : FsPath), generate_commands_for_agents fs c agents = fs := by
  induction agents with
  | nil => intro fs c; rfl
  | cons a rest ih =>
    intro fs c
    show rest.foldl _ (a.generate_commands fs c) = fs
    rw [agent_generate_commands_none (h a (List.mem_cons_self a rest)) fs c]
    exact ih (fun b hb => h b (List.mem_cons_of_mem a hb)) fs c

theorem generate_skills_for_agents_noop {agents : List AgentTool}
    (h : ∀ a ∈ agents, a.skillsTarget = none) :
    ∀ (fs : FS) (c : FsPath), generate_skills_for_agents fs c agents = fs := by
  induction agents with
  | nil => intro fs c; rfl
  | cons a rest ih =>
    intro fs c
    show rest.foldl _ (a.generate_skills fs c) = fs
    rw [agent_generate_skills_none (h a (List.mem_cons_self a rest)) fs c]
    exact ih (fun b hb => h b (List.mem_cons_of_mem a hb)) fs c

/-- C4: symlink mode is detected exactly when the rule directory holds
exactly one `.md` file, every such file (the single one) is named
`AGENTS.md` and its left-trimmed content does not start with the
frontmatter delimiter; a second rule file (listing length ≠ 1) or
frontmatter in the single file forces the predicate to `false`; and
whenever the predicate is `false` on the cleaned tree, `generate_files`
takes the standard branch — it parses the rules, writes the collected
body/agent files and the MCP files for every configured agent, runs the
command and skills phases, and creates no rule symlink: for agents
declaring no command or skills generators (which make their own
symlinks even in standard mode), the run adds no symlink at all. -/
theorem symlink_mode_detection (fs : FS) (cur : FsPath) :
    (detect_symlink_mode fs cur = true ↔
      ((mdFilesInAiRulesDir fs cur).length = 1 ∧
        ∀ nc ∈ mdFilesInAiRulesDir fs cur, nc.1 = agentsMdFilename ∧
          frontmatterDelimiter.data.isPrefixOf (trimStartStr nc.2).data = false)) ∧
    ((mdFilesInAiRulesDir fs cur).length ≠ 1 → detect_symlink_mode fs cur = false) ∧
    (∀ c, (agentsMdFilename, c) ∈ mdFilesInAiRulesDir fs cur →
      frontmatterDelimiter.data.isPrefixOf (trimStartStr c).data = true →
      detect_symlink_mode fs cur = false) ∧
    (∀ yamlParse mcpTransform agents sources,
      detect_symlink_mode (clean_generated_files fs cur agents) cur = false →
      find_source_files yamlParse (clean_generated_files fs cur agents) cur = .ok sources →
      generate_files_model yamlParse mcpTransform agents fs cur =
        .ok (generate_skills_for_agents (generate_commands_for_agents
              (((clean_generated_files fs cur agents).writeFiles
                  (collectDirMap sources cur agents)).writeFiles
                (collectMcpMap mcpTransform
                  ((clean_generated_files fs cur agents).writeFiles
                    (collectDirMap sources cur agents)) cur agents)) cur agents)
            cur agents) ∧
      ((∀ a ∈ agents, a.commandTarget = none ∧ a.skillsTarget = none) →
        ∀ result, generate_files_model yamlParse mcpTransform agents fs cur = .ok result →
          result.symlinks = (clean_generated_files fs cur agents).symlinks)) := by
  have hiff : detect_symlink_mode fs cur = true ↔
      ((mdFilesInAiRulesDir fs cur).length = 1 ∧
        ∀ nc ∈ mdFilesInAiRulesDir fs cur, nc.1 = agentsMdFilename ∧
          frontmatterDelimiter.data.isPrefixOf (trimStartStr nc.2).data = false) := by
    rcases hm : mdFilesInAiRulesDir fs cur with _ | ⟨⟨name, content⟩, _ | ⟨nc2, rest⟩⟩
    · simp [detect_symlink_mode, hm]
    · simp only [detect_symlink_mode, hm, List.length_cons, List.length_nil,
        List.mem_singleton, is_pure_markdown, Bool.and_eq_true, beq_iff_eq,
        Bool.not_eq_true']
      constructor
      · rintro ⟨h1, h2⟩
        exact ⟨by trivial, fun nc hnc => by rw [hnc]; exact ⟨h1, h2⟩⟩
      · rintro ⟨-, h2⟩
        exact h2 (name, content) rfl
    · simp [detect_symlink_mode, hm]
  refine ⟨hiff, ?_, ?_, ?_⟩
  · intro hlen
    exact Bool.eq_false_iff.mpr fun hdet => hlen (hiff.mp hdet).1
  · intro c hc hpref
    refine Bool.eq_false_iff.mpr fun hdet => ?_
    have h2 := ((hiff.mp hdet).2 _ hc).2
    rw [hpref] at h2
    exact Bool.noConfusion h2
  · intro yamlParse mcpTransform agents sources hdetc hfind
    have hgen : generate_files_model yamlParse mcpTransform agents fs cur =
        .ok (generate_skills_for_agents (generate_commands_for_agents
              (((clean_generated_files fs cur agents).writeFiles
                  (collectDirMap sources cur agents)).writeFiles
                (collectMcpMap mcpTransform
                  ((clean_generated_files fs cur agents).writeFiles
                    (collectDirMap sources cur agents)) cur agents)) cur agents)
            cur agents) := by
      simp only [generate_files_model]
      rw [if_neg (by rw [hdetc]; exact Bool.noConfusion)]
      rw [hfind]
      rfl
    refine ⟨hgen, fun hnone result hres => ?_⟩
    rw [hgen] at hres
    injection hres with hres
    rw [← hres,
      generate_skills_for_agents_noop (fun a ha => (hnone a ha).2),
      generate_commands_for_agents_noop (fun a ha => (hnone a ha).1),
      writeFiles_symlinks_eq, writeFiles_symlinks_eq]

/-- A rule root in symlink mode: a single pure-markdown `AGENTS.md`. -/
def c4FsA : FS :=
  { files := [([aiRuleSourceDir, agentsMdFilename], "# shared agent rules\n")],
    symlinks := [] }

/-- The same root with a second rule file added. -/
def c4FsB : FS :=
  { files := [([aiRuleSourceDir, agentsMdFilename], "# shared agent rules\n"),
              ([aiRuleSourceDir, "extra.md"], "# extra rule\n")],
    symlinks := [] }

/-- The same root with frontmatter added to the single file. -/
def c4FsC : FS :=
  { files := [([aiRuleSourceDir, agentsMdFilename],
               "---\ndescription: d\nalwaysApply: true\n---\nbody\n")],
    symlinks := [] }

/-- Witness for C4 at concrete rule roots: the single pure `AGENTS.md`
triggers symlink mode, a second rule file or added frontmatter turns the
predicate off, and the two-file root generates through the standard
branch with no symlink created. -/
theorem symlink_mode_detection_witness :
    detect_symlink_mode c4FsA [] = true ∧
    detect_symlink_mode c4FsB [] = false ∧
    detect_symlink_mode c4FsC [] = false ∧
    ∀ result, generate_files_model (fun _ => .error "yaml") (fun s => .ok s)
        [] c4FsB [] = .ok result → result.symlinks = [] := by
  have hA := (symlink_mode_detection c4FsA []).1.mpr
    ⟨rfl, by intro nc hnc; rw [List.mem_singleton.mp hnc]; exact ⟨rfl, rfl⟩⟩
  have hB := (symlink_mode_detection c4FsB []).2.1 (by decide)
  have hC := (symlink_mode_detection c4FsC []).2.2.1
    "---\ndescription: d\nalwaysApply: true\n---\nbody\n"
    (by rw [show mdFilesInAiRulesDir c4FsC [] =
        [(agentsMdFilename, "---\ndescription: d\nalwaysApply: true\n---\nbody\n")] from rfl]
        exact List.mem_singleton.mpr rfl)
    rfl
  have hD := ((symlink_mode_detection c4FsB []).2.2.2
    (fun _ => .error "yaml") (fun s => .ok s) []
    [{ front_matter := FrontMatter.with_defaults_from_path "ai-rules/AGENTS.md",
       body := "# shared agent rules\n", base_file_name := "AGENTS" },
     { front_matter := FrontMatter.with_defaults_from_path "ai-rules/extra.md",
       body := "# extra rule\n", base_file_name := "extra" }]
    rfl rfl).2 (fun a ha => absurd ha (List.not_mem_nil a))
  refine ⟨hA, hB, hC, fun result hres => ?_⟩
  rw [hD result hres]
  rfl

/-! ## C1: infrastructure — generic map, filter and fold lemmas -/

theorem canon_no_dotdot (l : List String) (h : ∀ x ∈ l, ¬ x = "..") :
    ∀ acc, l.foldl (fun acc c => if c = ".." then acc.dropLast else acc ++ [c]) acc
      = acc ++ l := by
  induction l with
  | nil => simp
  | cons x xs ih =>
    intro acc
    show xs.foldl _ (if x = ".." then acc.dropLast else acc ++ [x]) = _
    rw [if_neg (h x (List.mem_cons_self _ _)), ih (fun y hy => h y (List.mem_cons_of_mem _ hy))]
    simp

theorem canon_pops : ∀ (k : Nat) (acc : List String), acc.length = k →
    (List.replicate k "..").foldl
      (fun acc c => if c = ".." then acc.dropLast else acc ++ [c]) acc = [] := by
  intro k
  induction k with
  | zero => intro acc hacc; rw [List.length_eq_zero.1 hacc]; rfl
  | succ n ih =>
    intro acc hacc
    show (List.replicate n "..").foldl _ (if (".." : String) = ".." then acc.dropLast else _) = []
    rw [if_pos rfl]
    exact ih _ (by rw [List.length_dropLast, hacc]; rfl)

theorem canonicalize_rel (pre s : List String) (hpre : ∀ x ∈ pre, ¬ x = "..") :
    canonicalizePath (pre ++ (List.replicate pre.length ".." ++ s)) = canonicalizePath s := by
  unfold canonicalizePath
  rw [List.foldl_append, List.foldl_append, canon_no_dotdot pre hpre [], canon_pops _ _ (by simp)]

theorem registry_cases (a : AgentTool) (ha : a ∈ stdRegistry) :
    (a.shape = .singleFile agentsMdFilename ∧ a.mcpOutputPath = none) ∨
    (a.shape = .markdownDir ".clinerules" none ∧ a.mcpOutputPath = none) ∨
    (a.shape = .markdownDir ".roo" (some "rules") ∧
      a.mcpOutputPath = some [".roo", "mcp.json"]) ∨
    (a.shape = .markdownDir ".kilocode" (some "rules") ∧ a.mcpOutputPath = none) := by
  simp only [stdRegistry, List.mem_cons, List.not_mem_nil, or_false] at ha
  rcases ha with rfl | rfl | rfl | rfl | rfl | rfl
  · exact Or.inl ⟨rfl, rfl⟩
  · exact Or.inl ⟨rfl, rfl⟩
  · exact Or.inl ⟨rfl, rfl⟩
  · exact Or.inr (Or.inl ⟨rfl, rfl⟩)
  · exact Or.inr (Or.inr (Or.inl ⟨rfl, rfl⟩))
  · exact Or.inr (Or.inr (Or.inr ⟨rfl, rfl⟩))

theorem std_cfg_none {a : AgentTool} (ha : a ∈ stdRegistry) :
    a.commandTarget = none ∧ a.skillsTarget = none := by
  simp only [stdRegistry, List.mem_cons, List.not_mem_nil, or_false] at ha
  rcases ha with rfl | rfl | rfl | rfl | rfl | rfl <;> exact ⟨rfl, rfl⟩

theorem isDirectChild_shape {dir p : FsPath} (h : isDirectChild dir p = true) :
    ∃ n, p = dir ++ [n] := by
  unfold isDirectChild at h
  rw [Bool.and_eq_true] at h
  obtain ⟨t, rfl⟩ := (List.isPrefixOf_iff_prefix).1 h.1
  have hl : t.length = 1 := by
    have := of_decide_eq_true h.2
    rw [List.length_append] at this
    omega
  obtain ⟨n, rfl⟩ := List.length_eq_one.1 hl
  exact ⟨n, rfl⟩

theorem isPrefixOf_cons_ne {a b : String} (as bs : List String) (h : ¬ a = b) :
    List.isPrefixOf (a :: as) (b :: bs) = false := by
  show (a == b && List.isPrefixOf as bs) = false
  rw [beq_eq_false_iff_ne.2 h, Bool.false_and]

theorem pathUnder_cons_ne {a b : String} (as bs : List String) (h : ¬ a = b) :
    pathUnder (a :: as) (b :: bs) = false := by
  unfold pathUnder
  rw [isPrefixOf_cons_ne as bs h, Bool.false_and]

theorem isDirectChild_cons_ne {a b : String} (as bs : List String) (h : ¬ a = b) :
    isDirectChild (a :: as) (b :: bs) = false := by
  unfold isDirectChild
  rw [isPrefixOf_cons_ne as bs h, Bool.false_and]

theorem pathUnder_same_length {dir p : FsPath} (h : p.length ≤ dir.length) :
    pathUnder dir p = false := by
  unfold pathUnder
  rw [decide_eq_false (by omega), Bool.and_false]

theorem unmanaged_ai_rules_child (agents : List AgentTool)
    (hagents : ∀ a ∈ agents, a ∈ stdRegistry) (n : String) :
    managedFilePath [] agents [aiRuleSourceDir, n] = false := by
  unfold managedFilePath
  rw [Bool.or_eq_false_iff, Bool.or_eq_false_iff, Bool.or_eq_false_iff,
    Bool.or_eq_false_iff, Bool.or_eq_false_iff, Bool.or_eq_false_iff,
    Bool.or_eq_false_iff]
  refine ⟨⟨⟨⟨⟨⟨⟨?_, ?_⟩, ?_⟩, ?_⟩, ?_⟩, ?_⟩, ?_⟩, ?_⟩
  · exact pathUnder_same_length (by simp [generated_body_file_dir, aiRuleSourceDir])
  · exact pathUnder_cons_ne _ _ (by decide)
  · simp [aiRuleSourceDir]
  · unfold isLegacyPrefixedFile legacyAgentDirs
    rw [List.any_eq_false]
    intro ld hld
    rw [Bool.not_eq_true]
    simp only [List.mem_cons, List.not_mem_nil, or_false] at hld
    rcases hld with rfl | rfl | rfl
    · show (isDirectChild [".roo", "rules"] [aiRuleSourceDir, n] && _) = false
      rw [isDirectChild_cons_ne _ _ (by decide), Bool.false_and]
    · show (isDirectChild [".clinerules"] [aiRuleSourceDir, n] && _) = false
      rw [isDirectChild_cons_ne _ _ (by decide), Bool.false_and]
    · show (isDirectChild [".kilocode", "rules"] [aiRuleSourceDir, n] && _) = false
      rw [isDirectChild_cons_ne _ _ (by decide), Bool.false_and]
  · rw [List.any_eq_false]
    intro a ha
    rw [Bool.not_eq_true]
    unfold AgentTool.cleanFileRegion
    rcases registry_cases a (hagents a ha) with ⟨hs, -⟩ | ⟨hs, -⟩ | ⟨hs, -⟩ | ⟨hs, -⟩ <;>
      rw [hs]
    · exact decide_eq_false (by simp [aiRuleSourceDir, agentsMdFilename])
    · exact pathUnder_cons_ne _ _ (by decide)
    · exact pathUnder_cons_ne _ _ (by decide)
    · exact pathUnder_cons_ne _ _ (by decide)
  · rw [List.any_eq_false]
    intro a ha
    rw [Bool.not_eq_true]
    unfold AgentTool.mcpRegion
    rcases registry_cases a (hagents a ha) with ⟨-, hm⟩ | ⟨-, hm⟩ | ⟨-, hm⟩ | ⟨-, hm⟩ <;>
      rw [hm]
    exact decide_eq_false (by simp [aiRuleSourceDir])
  · rw [List.any_eq_false]
    intro a ha
    rw [Bool.not_eq_true]
    simp [AgentTool.commandFileRegion, (std_cfg_none (hagents a ha)).1]
  · rw [List.any_eq_false]
    intro a ha
    rw [Bool.not_eq_true]
    simp [AgentTool.skillsRegion, (std_cfg_none (hagents a ha)).2]

theorem filterMap_filter_of_none {α β : Type} (p : α → Bool) (f : α → Option β)
    (l : List α) (h : ∀ x ∈ l, p x = false → f x = none) :
    (l.filter p).filterMap f = l.filterMap f := by
  induction l with
  | nil => rfl
  | cons x xs ih =>
    by_cases hp : p x = true
    · rw [List.filter_cons_of_pos hp]
      rcases hf : f x with _ | y <;>
        simp [List.filterMap_cons, hf, ih fun z hz => h z (List.mem_cons_of_mem _ hz)]
    · rw [List.filter_cons_of_neg hp, List.filterMap_cons,
        h x (List.mem_cons_self _ _) (Bool.not_eq_true _ ▸ hp)]
      exact ih fun z hz => h z (List.mem_cons_of_mem _ hz)

theorem mdFiles_clean (fs : FS) (agents : List AgentTool)
    (hagents : ∀ a ∈ agents, a ∈ stdRegistry) :
    mdFilesInAiRulesDir (clean_generated_files fs [] agents) [] =
      mdFilesInAiRulesDir fs [] := by
  unfold mdFilesInAiRulesDir filesByExtensionIn
  rw [clean_generated_files_eq]
  show ((fs.files.filter _).filterMap _).foldr _ _ = _
  rw [filterMap_filter_of_none]
  intro e _ hmng
  rcases hgl : e.1.getLast? with _ | name
  · rfl
  · simp only [hgl]
    rw [if_neg]
    intro hcond
    rw [Bool.and_eq_true] at hcond
    obtain ⟨n, hn⟩ := isDirectChild_shape hcond.1
    have hun := unmanaged_ai_rules_child agents hagents n
    have hn' : e.1 = [aiRuleSourceDir, n] := by simpa using hn
    rw [hn', hun] at hmng
    simp at hmng

theorem writeFiles_nil (fs : FS) : fs.writeFiles [] = fs := rfl

theorem lookupKey_clean_symlinks (fs : FS) (agents : List AgentTool) (k : FsPath) :
    lookupKey (clean_generated_files fs [] agents).symlinks k =
      if managedSymlinkPath [] agents k = true then none else lookupKey fs.symlinks k := by
  rw [clean_generated_files_eq]
  show lookupKey (fs.symlinks.filter fun e => !managedSymlinkPath [] agents e.1) k = _
  rw [lookupKey_filter_keyPred fs.symlinks (fun p => !managedSymlinkPath [] agents p) k]
  cases hm : managedSymlinkPath [] agents k <;> simp [hm]

end AiRules
